import Mathlib

/-!
Verification of the JazzyOrderBook core (`jazzy::order_book` and
`jazzy::detail::level_bitmap`) against its specification.

The C++ sources are shallowly embedded:
* ticks and volumes are `Int` (the test instantiation uses `int` for both);
* order ids are `Nat`;
* the per-side price-level arrays, occupancy bitmaps and FIFO queues are
  total functions from the level index, observed only below the book size `N`;
* `assert` failures (contract violations) make an operation return `none`;
* the `double` arithmetic in `calculate_size` is carried out exactly over `ℚ`
  (the `expected_range` is `basis_points / 10000` as in `market_statistics`).
-/

namespace Jazzy

/-! ### Window arithmetic: `calculate_size` / `calculate_bounds` (order_book.hpp) -/

/-- `calculate_size(daily_high, daily_low, expected_range)` from
`order_book.hpp`.  `scaled = span * (1.0 + expected_range)` is computed
exactly over `ℚ`; the cast `static_cast<size_type>(scaled)` truncates the
non-negative value, i.e. takes the floor; `size_type` is 64-bit, so the
overflow cap is `2^64 - 1`. -/
def calculateSize (high low : Int) (bp : Nat) : Nat :=
  let baseSpan : Int := high - low
  let scaled : ℚ := (baseSpan : ℚ) * (1 + (bp : ℚ) / 10000)
  let maxSize : Nat := 2 ^ 64 - 1
  if (maxSize : ℚ) < scaled then maxSize
  else
    let scaledSpan : Nat := (⌊scaled⌋).toNat
    let inclusiveSpan : Nat := baseSpan.toNat + 1
    if scaledSpan < inclusiveSpan then inclusiveSpan else scaledSpan

/-- The two shift steps of `calculate_bounds`: shift the window up when
`upper0 < daily_high`, then down when `lower > daily_low`. -/
def boundsShift (high low lower0 upper0 : Int) : Int × Int :=
  if upper0 < high then
    if low < lower0 + (high - upper0) then
      (lower0 + (high - upper0) - (lower0 + (high - upper0) - low),
       upper0 + (high - upper0) - (lower0 + (high - upper0) - low))
    else (lower0 + (high - upper0), upper0 + (high - upper0))
  else
    if low < lower0 then (lower0 - (lower0 - low), upper0 - (lower0 - low))
    else (lower0, upper0)

/-- `calculate_bounds(daily_high, daily_low, close, expected_range)` from
`order_book.hpp`: centre a window of length `calculate_size` on `close`
(`lower = close - span / 2`, `upper = lower + span - 1`), then apply the two
conditional shifts. -/
def calculateBounds (high low close : Int) (bp : Nat) : Int × Int :=
  boundsShift high low (close - (calculateSize high low bp : Int) / 2)
    (close - (calculateSize high low bp : Int) / 2 + (calculateSize high low bp : Int) - 1)

lemma calculateSize_eq_max (high low : Int) (bp : Nat)
    (hcap : ((high - low : Int) : ℚ) * (1 + (bp : ℚ) / 10000) ≤ ((2 ^ 64 - 1 : Nat) : ℚ)) :
    calculateSize high low bp =
      max ((high - low).toNat + 1)
        (⌊((high - low : Int) : ℚ) * (1 + (bp : ℚ) / 10000)⌋).toNat := by
  simp only [calculateSize]
  rw [if_neg (not_lt.mpr hcap)]
  split <;> omega

lemma calculateSize_ge_span (high low : Int) (bp : Nat)
    (hcap : ((high - low : Int) : ℚ) * (1 + (bp : ℚ) / 10000) ≤ ((2 ^ 64 - 1 : Nat) : ℚ)) :
    (high - low).toNat + 1 ≤ calculateSize high low bp := by
  simp only [calculateSize]
  rw [if_neg (not_lt.mpr hcap)]
  split <;> omega

lemma boundsShift_spec (high low lower0 upper0 span : Int)
    (hlen : upper0 - lower0 + 1 = span) (hspan : high - low + 1 ≤ span) :
    (boundsShift high low lower0 upper0).2 - (boundsShift high low lower0 upper0).1 + 1 = span
      ∧ (boundsShift high low lower0 upper0).1 ≤ low
      ∧ high ≤ (boundsShift high low lower0 upper0).2 := by
  unfold boundsShift
  split_ifs <;> refine ⟨by omega, by omega, by omega⟩

/-- The derived window always has length `calculateSize` and contains
`[daily_low, daily_high]`, provided `daily_low < daily_high` and the scaled
span stays below the 64-bit cap. -/
lemma calculateBounds_spec (high low close : Int) (bp : Nat) (h : low < high)
    (hcap : ((high - low : Int) : ℚ) * (1 + (bp : ℚ) / 10000) ≤ ((2 ^ 64 - 1 : Nat) : ℚ)) :
    (calculateBounds high low close bp).2 - (calculateBounds high low close bp).1 + 1
        = (calculateSize high low bp : Int)
      ∧ (calculateBounds high low close bp).1 ≤ low
      ∧ high ≤ (calculateBounds high low close bp).2 := by
  have hspan : (high - low).toNat + 1 ≤ calculateSize high low bp :=
    calculateSize_ge_span high low bp hcap
  refine boundsShift_spec high low _ _ _ (by ring) (by omega)

/-! ### The order book state (order_book.hpp)

Ticks and volumes are `Int`, order ids are `Nat`.  The two `std::pmr::vector`
of levels, the two bitmaps and the per-level FIFO queues are total functions
from the level index; the book observes them only at indices `< N`.  The
`orders_` hash map is a function `Nat → Option OrderRec`.  Fatal `assert`s
(duplicate insert, missing id, out-of-range tick under the assert policy)
make an operation return `none`. -/

/-- Window parameters derived from the market statistics at construction. -/
structure Params where
  N : Nat
  rangeLow : Int
  dailyLow : Int
  dailyHigh : Int
deriving DecidableEq

/-- The parameters the book template computes from `market_statistics`:
`size_`, `range_low_v_` and the daily range used for bounds checks. -/
def statsParams (high low close : Int) (bp : Nat) : Params :=
  ⟨calculateSize high low bp, (calculateBounds high low close bp).1, low, high⟩

/-- Well-formedness of the window: positive size and the daily range fits. -/
def Params.wf (P : Params) : Prop :=
  0 < P.N ∧ P.dailyLow ≤ P.dailyHigh ∧ P.rangeLow ≤ P.dailyLow ∧
    P.dailyHigh < P.rangeLow + P.N

/-- Policy and storage selections (`BoundsPolicy`, `ZeroVolumePolicy`,
`LevelStorage`); `false`/`false`/`false` is the default instantiation
(assert bounds, zero-as-valid, aggregate levels). -/
structure Config where
  bpDiscard : Bool
  zpDelete : Bool
  fifo : Bool
deriving DecidableEq

/-- A stored order record (`order_data`): the caller's order with the tick and
volume as last written, plus the intrusive FIFO node's `in_queue` flag.  The
node's prev/next links are represented by the per-level queue lists. -/
structure OrderRec where
  tick : Int
  volume : Int
  inQueue : Bool
deriving DecidableEq

/-- One side of the book: best-price cache (`tick_type_strong`, `none` is the
no-value sentinel), occupancy bitmap, level volumes and per-level FIFO
queues. -/
structure SideState where
  best : Option Int
  bit : Nat → Bool
  vol : Nat → Int
  q : Nat → List Nat

attribute [ext] SideState

structure Book where
  bid : SideState
  ask : SideState
  orders : Nat → Option OrderRec

attribute [ext] Book

inductive Side
  | bid
  | ask
deriving DecidableEq

def Book.getS : Book → Side → SideState
  | s, .bid => s.bid
  | s, .ask => s.ask

def Book.setS : Book → Side → SideState → Book
  | s, .bid, ss => { s with bid := ss }
  | s, .ask, ss => { s with ask := ss }

/-- Point update of a map. -/
def updFn {α : Type} (f : Nat → α) (i : Nat) (a : α) : Nat → α :=
  fun j => if j = i then a else f j

def Book.setOrder (s : Book) (oid : Nat) (r : Option OrderRec) : Book :=
  { s with orders := updFn s.orders oid r }

def Book.volAt (s : Book) (side : Side) (i : Nat) : Int := (s.getS side).vol i

def Book.bitAt (s : Book) (side : Side) (i : Nat) : Bool := (s.getS side).bit i

def Book.qAt (s : Book) (side : Side) (i : Nat) : List Nat := (s.getS side).q i

def Book.bestOf (s : Book) (side : Side) : Option Int := (s.getS side).best

def Book.addVol (s : Book) (side : Side) (i : Nat) (dv : Int) : Book :=
  s.setS side { s.getS side with vol := updFn (s.getS side).vol i ((s.getS side).vol i + dv) }

def Book.setBitB (s : Book) (side : Side) (i : Nat) (b : Bool) : Book :=
  s.setS side { s.getS side with bit := updFn (s.getS side).bit i b }

def Book.setBestB (s : Book) (side : Side) (ob : Option Int) : Book :=
  s.setS side { s.getS side with best := ob }

def Book.setQAt (s : Book) (side : Side) (i : Nat) (l : List Nat) : Book :=
  s.setS side { s.getS side with q := updFn (s.getS side).q i l }

/-- Set the stored record's `in_queue` flag (the node state mutated by the
intrusive queue's `push_back` / `erase` / `reset`). -/
def Book.markInQueue (s : Book) (oid : Nat) (b : Bool) : Book :=
  match s.orders oid with
  | none => s
  | some r => s.setOrder oid (some { r with inQueue := b })

/-- `intrusive_fifo_queue::push_back(id, lookup)` at level `i`. -/
def Book.pushQ (s : Book) (side : Side) (i : Nat) (oid : Nat) : Book :=
  (s.setQAt side i (s.qAt side i ++ [oid])).markInQueue oid true

/-- `intrusive_fifo_queue::erase(id, lookup)` at level `i` (node unlink plus
`node.reset()`). -/
def Book.eraseQ (s : Book) (side : Side) (i : Nat) (oid : Nat) : Book :=
  (s.setQAt side i ((s.qAt side i).erase oid)).markInQueue oid false

/-- `tick <= daily_high_v && tick >= daily_low_v`. -/
def inRange (P : Params) (t : Int) : Bool :=
  decide (t ≤ P.dailyHigh) && decide (P.dailyLow ≤ t)

/-- `tick_to_index`: `tick - range_low`. -/
def toIdx (P : Params) (t : Int) : Nat := (t - P.rangeLow).toNat

/-- `index_to_tick`. -/
def idxTick (P : Params) (i : Nat) : Int := P.rangeLow + (i : Int)

/-- The best-price improvement test
`!best_price.has_value() || tick_strong [>|<] best_price`
(for bids resp. asks, with `tick_type_strong` ordering). -/
def betterB : Side → Int → Option Int → Bool
  | _, _, none => true
  | .bid, t, some b => decide (b < t)
  | .ask, t, some b => decide (t < b)

/-- Index semantics of `level_bitmap::find_highest` restricted to `[0, n)`:
the largest set index, or `none`. -/
def findHighestIdx (bm : Nat → Bool) : Nat → Option Nat
  | 0 => none
  | n + 1 => if bm n then some n else findHighestIdx bm n

/-- Index semantics of `level_bitmap::find_lowest` restricted to `[0, n)`:
the smallest set index, or `none`. -/
def findLowestIdx (bm : Nat → Bool) : Nat → Option Nat
  | 0 => none
  | n + 1 =>
    match findLowestIdx bm n with
    | some i => some i
    | none => if bm n then some n else none

def scanIdx : Side → (Nat → Bool) → Nat → Option Nat
  | .bid, bm, n => findHighestIdx bm n
  | .ask, bm, n => findLowestIdx bm n

/-- `scan_for_best_bid` / `scan_for_best_ask`: bitmap scan mapped back to a
tick (`none` when the bitmap is empty). -/
def scanBest (P : Params) (side : Side) (bm : Nat → Bool) : Option Int :=
  (scanIdx side bm P.N).map (fun i => idxTick P i)

/-- The in-range body of `insert_order_impl`: bump the level volume, push to
the FIFO queue, promote the best price, set the bitmap bit (unconditionally). -/
def insertPlace (P : Params) (cfg : Config) (side : Side) (t : Int) (oid : Nat)
    (v : Int) (s1 : Book) : Book :=
  let i := toIdx P t
  let s2 := s1.addVol side i v
  let s3 := if cfg.fifo then s2.pushQ side i oid else s2
  let s4 := if betterB side t (s3.bestOf side) then s3.setBestB side (some t) else s3
  s4.setBitB side i true

/-- `insert_order_impl` (plus the `insert_bid` / `insert_ask` fronts).
The record is emplaced (and its tick normalised) before the bounds check;
under the discard policy an out-of-range insert keeps the record but touches
no price level. -/
def insertImpl (P : Params) (cfg : Config) (side : Side) (t : Int) (oid : Nat)
    (v : Int) (s : Book) : Option Book :=
  match s.orders oid with
  | some _ => none
  | none =>
    let s1 := s.setOrder oid (some ⟨t, v, false⟩)
    if inRange P t then some (insertPlace P cfg side t oid v s1)
    else if cfg.bpDiscard then some s1
    else none

/-- The in-range body of `remove_order_impl`: unlink the FIFO node, erase the
record, subtract the stored volume from the level at the supplied tick, and
when the level empties clear its bit and rescan the best if it was this tick. -/
def removePlace (P : Params) (cfg : Config) (side : Side) (t : Int) (oid : Nat)
    (rec0 : OrderRec) (s : Book) : Book :=
  let i := toIdx P t
  let s1 := if cfg.fifo && rec0.inQueue then s.eraseQ side i oid else s
  let s2 := s1.setOrder oid none
  let s3 := s2.addVol side i (-rec0.volume)
  if s3.volAt side i = 0 then
    let s4 := s3.setBitB side i false
    if s4.bestOf side = some t then
      s4.setBestB side (scanBest P side (s4.getS side).bit)
    else s4
  else s3

/-- `remove_order_impl`: the level is indexed by the caller-supplied tick;
the subtracted volume is the stored one.  Under the discard policy an
out-of-range remove erases the record only. -/
def removeImpl (P : Params) (cfg : Config) (side : Side) (t : Int) (oid : Nat)
    (s : Book) : Option Book :=
  match s.orders oid with
  | none => none
  | some rec0 =>
    if inRange P t then some (removePlace P cfg side t oid rec0 s)
    else if cfg.bpDiscard then some (s.setOrder oid none)
    else none

/-- `update_order_impl`'s `ensure_best_price_on_add` lambda. -/
def ensureBest (side : Side) (t : Int) (s : Book) : Book :=
  if betterB side t (s.bestOf side) then s.setBestB side (some t) else s

/-- `update_order_impl`'s `refresh_best_if_empty` lambda. -/
def refreshIfEmpty (P : Params) (side : Side) (price : Int) (i : Nat) (s : Book) : Book :=
  if s.volAt side i = 0 ∧ s.bestOf side = some price then
    s.setBestB side (scanBest P side (s.getS side).bit)
  else s

/-- `update_order_impl`'s `sync_bitset` lambda. -/
def syncBit (s : Book) (side : Side) (i : Nat) : Book :=
  s.setBitB side i (decide (s.volAt side i ≠ 0))

/-- `update_order_impl`'s `remove_from_fifo` lambda. -/
def removeFromFifo (cfg : Config) (side : Side) (i : Nat) (oid : Nat) (s : Book) : Book :=
  if cfg.fifo then
    match s.orders oid with
    | some r => if r.inQueue then s.eraseQ side i oid else s
    | none => s
  else s

/-- `update_order_impl`'s `push_to_fifo` lambda. -/
def pushToFifo (cfg : Config) (side : Side) (i : Nat) (oid : Nat) (v : Int) (s : Book) : Book :=
  if cfg.fifo ∧ v ≠ 0 then s.pushQ side i oid else s

/-- `update_order_impl`'s `move_fifo_to_back` lambda
(`intrusive_fifo_queue::move_to_back`: a no-op when the node is not queued
or already at the tail, i.e. has no `next`). -/
def moveToBackF (cfg : Config) (side : Side) (i : Nat) (oid : Nat) (s : Book) : Book :=
  if cfg.fifo then
    match s.orders oid with
    | some r =>
      if r.inQueue then
        if (s.qAt side i).getLast? = some oid then s
        else (s.eraseQ side i oid).pushQ side i oid
      else s
    | none => s
  else s

/-- The "was out-of-bounds, now in-bounds" update case (behaves like insert,
but with `sync_bitset` instead of an unconditional bit set). -/
def updMoveIn (P : Params) (cfg : Config) (side : Side) (t : Int) (oid : Nat)
    (v : Int) (s : Book) : Book :=
  let ni := toIdx P t
  let s1 := s.addVol side ni v
  let s2 := syncBit s1 side ni
  let s3 := pushToFifo cfg side ni oid v s2
  ensureBest side t s3

/-- The "was in-bounds, now out-of-bounds" update case (behaves like remove
from the price levels). -/
def updMoveOut (P : Params) (cfg : Config) (side : Side) (t0 : Int) (oid : Nat)
    (v0 : Int) (s : Book) : Book :=
  let oi := toIdx P t0
  let s1 := removeFromFifo cfg side oi oid s
  let s2 := s1.addVol side oi (-v0)
  let s3 := syncBit s2 side oi
  refreshIfEmpty P side t0 oi s3

/-- The normal update case (both ticks in bounds, or the assert policy):
adjust the old level, handle the zero-volume-delete policy, the FIFO queue,
then the new level when the price changed, and finally refresh the best. -/
def updSame (P : Params) (cfg : Config) (side : Side) (t t0 : Int) (oid : Nat)
    (v v0 : Int) (s : Book) : Book :=
  let oi := toIdx P t0
  let ni := toIdx P t
  let delta := v - v0
  let adj := if t ≠ t0 then -v0 else delta
  let s1 := s.addVol side oi adj
  let s2 := syncBit s1 side oi
  if cfg.zpDelete ∧ v = 0 then
    let s3 := removeFromFifo cfg side oi oid s2
    let s4 := s3.setOrder oid none
    refreshIfEmpty P side t0 oi s4
  else
    let s3 :=
      if cfg.fifo then
        if t ≠ t0 then removeFromFifo cfg side oi oid s2
        else if delta > 0 then moveToBackF cfg side oi oid s2
        else s2
      else s2
    let s4 :=
      if t ≠ t0 then
        ensureBest side t (pushToFifo cfg side ni oid v (syncBit (s3.addVol side ni v) side ni))
      else s3
    refreshIfEmpty P side t0 oi s4

/-- `update_order_impl`: write the new volume and tick into the stored
record, then dispatch on the bounds situation (under the discard policy) or
assert the new tick in range. -/
def updateImpl (P : Params) (cfg : Config) (side : Side) (t : Int) (oid : Nat)
    (v : Int) (s : Book) : Option Book :=
  match s.orders oid with
  | none => none
  | some rec0 =>
    let t0 := rec0.tick
    let v0 := rec0.volume
    let s1 := s.setOrder oid (some ⟨t, v, rec0.inQueue⟩)
    if cfg.bpDiscard then
      if !inRange P t0 && !inRange P t then some s1
      else if !inRange P t0 && inRange P t then some (updMoveIn P cfg side t oid v s1)
      else if inRange P t0 && !inRange P t then some (updMoveOut P cfg side t0 oid v0 s1)
      else some (updSame P cfg side t t0 oid v v0 s1)
    else
      if inRange P t then some (updSame P cfg side t t0 oid v v0 s1) else none

/-- `clear()` on one side: levels with non-zero volume are zeroed, their
queues reset and their bits cleared; levels with zero volume are skipped.
The best is reset to no-value. -/
def clearSide (P : Params) (cfg : Config) (ss : SideState) : SideState :=
  { best := none
    bit := fun i => if i < P.N ∧ ss.vol i ≠ 0 then false else ss.bit i
    vol := fun i => if i < P.N ∧ ss.vol i ≠ 0 then 0 else ss.vol i
    q := fun i => if i < P.N ∧ ss.vol i ≠ 0 ∧ cfg.fifo then [] else ss.q i }

/-- `clear()`: clears the order index, resets both bests, then walks the
levels as above. -/
def clearImpl (P : Params) (cfg : Config) (s : Book) : Book :=
  { bid := clearSide P cfg s.bid
    ask := clearSide P cfg s.ask
    orders := fun _ => none }

/-- `numeric_limits<int>::min()`, the `NO_BID_VALUE` sentinel for a 32-bit
tick type. -/
def NO_BID_VALUE : Int := -(2 ^ 31)

/-- `numeric_limits<int>::max()`, the `NO_ASK_VALUE` sentinel. -/
def NO_ASK_VALUE : Int := 2 ^ 31 - 1

/-- `best_bid()`: the cache's value, or the sentinel when it has none. -/
def bestBidQ (s : Book) : Int := s.bid.best.getD NO_BID_VALUE

/-- `best_ask()`. -/
def bestAskQ (s : Book) : Int := s.ask.best.getD NO_ASK_VALUE

/-- `bid_volume_at_tick`: asserts `daily_low <= tick <= daily_high`
unconditionally (no policy dispatch), then reads the level. -/
def bidVolumeAtTick (P : Params) (s : Book) (t : Int) : Option Int :=
  if inRange P t then some (s.bid.vol (toIdx P t)) else none

/-- `ask_volume_at_tick`. -/
def askVolumeAtTick (P : Params) (s : Book) (t : Int) : Option Int :=
  if inRange P t then some (s.ask.vol (toIdx P t)) else none

def emptySide : SideState := ⟨none, fun _ => false, fun _ => 0, fun _ => []⟩

/-- A freshly constructed book. -/
def freshBook : Book := ⟨emptySide, emptySide, fun _ => none⟩

/-- Invariant P1 on one side: a bit is set iff the level volume is non-zero. -/
def Inv1S (P : Params) (ss : SideState) : Prop :=
  ∀ i, i < P.N → (ss.bit i = true ↔ ss.vol i ≠ 0)

/-- Invariant P1 on both sides. -/
def Inv1 (P : Params) (s : Book) : Prop := Inv1S P s.bid ∧ Inv1S P s.ask

/-- Invariants P2/P3 on one side: the best cache equals the bitmap scan. -/
def Inv2S (P : Params) (side : Side) (ss : SideState) : Prop :=
  ss.best = (scanIdx side ss.bit P.N).map (fun i => idxTick P i)

/-- Invariants P2/P3 on both sides. -/
def Inv2 (P : Params) (s : Book) : Prop :=
  Inv2S P .bid s.bid ∧ Inv2S P .ask s.ask

/-- Observational equality over the window: bests, all level data below `N`
and the whole order index agree. -/
def ObsEqN (P : Params) (s1 s2 : Book) : Prop :=
  s1.bid.best = s2.bid.best ∧ s1.ask.best = s2.ask.best ∧
    (∀ i, i < P.N → s1.bid.bit i = s2.bid.bit i ∧ s1.bid.vol i = s2.bid.vol i ∧
      s1.bid.q i = s2.bid.q i ∧ s1.ask.bit i = s2.ask.bit i ∧
      s1.ask.vol i = s2.ask.vol i ∧ s1.ask.q i = s2.ask.q i) ∧
    ∀ oid, s1.orders oid = s2.orders oid

/-- The default template instantiation: assert bounds, zero-as-valid,
aggregate storage. -/
def cfgDefault : Config := ⟨false, false, false⟩

/-- FIFO storage with the default policies. -/
def cfgFifo : Config := ⟨false, false, true⟩

/-- Discard bounds policy, aggregate storage. -/
def cfgDiscard : Config := ⟨true, false, false⟩

/-- Discard bounds policy with FIFO storage. -/
def cfgDiscardFifo : Config := ⟨true, false, true⟩

/-- The spec's concrete market statistics
`daily_low=90, daily_high=130, close=110, expected_range=0.20`:
`N = 48`, window `[86, 133]`. -/
def P48 : Params := ⟨48, 86, 90, 130⟩

lemma P48_eq_statsParams : P48 = statsParams 130 90 110 2000 := by
  have h1 : calculateSize 130 90 2000 = 48 := by
    norm_num [calculateSize]
    rfl
  have h2 : calculateBounds 130 90 110 2000 = (86, 133) := by
    rw [calculateBounds, h1]
    norm_num [boundsShift]
  rw [statsParams, h1, h2]
  rfl

/-! ### Projection lemmas for the state primitives -/

@[simp] lemma getS_setS_same (s : Book) (side : Side) (ss : SideState) :
    (s.setS side ss).getS side = ss := by
  cases side <;> rfl

lemma getS_setS_other (s : Book) {side side' : Side} (h : side' ≠ side) (ss : SideState) :
    (s.setS side ss).getS side' = s.getS side' := by
  cases side <;> cases side' <;> first | rfl | exact absurd rfl h

@[simp] lemma orders_setS (s : Book) (side : Side) (ss : SideState) :
    (s.setS side ss).orders = s.orders := by
  cases side <;> rfl

@[simp] lemma getS_setOrder (s : Book) (oid : Nat) (r : Option OrderRec) (side : Side) :
    (s.setOrder oid r).getS side = s.getS side := by
  cases side <;> rfl

@[simp] lemma orders_setOrder (s : Book) (oid : Nat) (r : Option OrderRec) :
    (s.setOrder oid r).orders = updFn s.orders oid r := rfl

@[simp] lemma updFn_same {α : Type} (f : Nat → α) (i : Nat) (a : α) : updFn f i a i = a := by
  simp [updFn]

lemma updFn_other {α : Type} (f : Nat → α) {i j : Nat} (h : j ≠ i) (a : α) :
    updFn f i a j = f j := by
  simp [updFn, h]

@[simp] lemma getS_markInQueue (s : Book) (oid : Nat) (b : Bool) (side : Side) :
    (s.markInQueue oid b).getS side = s.getS side := by
  unfold Book.markInQueue
  cases s.orders oid <;> simp

@[simp] lemma getS_addVol_same (s : Book) (side : Side) (i : Nat) (dv : Int) :
    (s.addVol side i dv).getS side =
      { s.getS side with vol := updFn (s.getS side).vol i ((s.getS side).vol i + dv) } := by
  simp [Book.addVol]

@[simp] lemma orders_addVol (s : Book) (side : Side) (i : Nat) (dv : Int) :
    (s.addVol side i dv).orders = s.orders := by
  simp [Book.addVol]

@[simp] lemma getS_setBitB_same (s : Book) (side : Side) (i : Nat) (b : Bool) :
    (s.setBitB side i b).getS side =
      { s.getS side with bit := updFn (s.getS side).bit i b } := by
  simp [Book.setBitB]

@[simp] lemma orders_setBitB (s : Book) (side : Side) (i : Nat) (b : Bool) :
    (s.setBitB side i b).orders = s.orders := by
  simp [Book.setBitB]

@[simp] lemma getS_setBestB_same (s : Book) (side : Side) (ob : Option Int) :
    (s.setBestB side ob).getS side = { s.getS side with best := ob } := by
  simp [Book.setBestB]

@[simp] lemma orders_setBestB (s : Book) (side : Side) (ob : Option Int) :
    (s.setBestB side ob).orders = s.orders := by
  simp [Book.setBestB]

@[simp] lemma getS_setQAt_same (s : Book) (side : Side) (i : Nat) (l : List Nat) :
    (s.setQAt side i l).getS side =
      { s.getS side with q := updFn (s.getS side).q i l } := by
  simp [Book.setQAt]

@[simp] lemma orders_setQAt (s : Book) (side : Side) (i : Nat) (l : List Nat) :
    (s.setQAt side i l).orders = s.orders := by
  simp [Book.setQAt]

@[simp] lemma orders_markInQueue_of_none (s : Book) (oid : Nat) (b : Bool)
    (h : s.orders oid = none) : (s.markInQueue oid b).orders = s.orders := by
  unfold Book.markInQueue
  rw [h]

lemma getS_addVol_other (s : Book) {side side' : Side} (h : side' ≠ side) (i : Nat) (dv : Int) :
    (s.addVol side i dv).getS side' = s.getS side' := by
  simp [Book.addVol, getS_setS_other s h]

lemma getS_setBitB_other (s : Book) {side side' : Side} (h : side' ≠ side) (i : Nat) (b : Bool) :
    (s.setBitB side i b).getS side' = s.getS side' := by
  simp [Book.setBitB, getS_setS_other s h]

lemma getS_setBestB_other (s : Book) {side side' : Side} (h : side' ≠ side) (ob : Option Int) :
    (s.setBestB side ob).getS side' = s.getS side' := by
  simp [Book.setBestB, getS_setS_other s h]

lemma getS_setQAt_other (s : Book) {side side' : Side} (h : side' ≠ side) (i : Nat) (l : List Nat) :
    (s.setQAt side i l).getS side' = s.getS side' := by
  simp [Book.setQAt, getS_setS_other s h]

/-! ### Characterisation of the bitmap scans -/

lemma findHighestIdx_eq_none_iff (bm : Nat → Bool) (n : Nat) :
    findHighestIdx bm n = none ↔ ∀ i, i < n → bm i = false := by
  induction n with
  | zero => simp [findHighestIdx]
  | succ n ih =>
    unfold findHighestIdx
    by_cases hn : bm n = true
    · simp only [hn, if_true]
      constructor
      · intro h
        exact absurd h (by simp)
      · intro h
        rw [h n (Nat.lt_succ_self n)] at hn
        exact absurd hn (by simp)
    · rw [Bool.not_eq_true] at hn
      simp only [hn, Bool.false_eq_true, if_false, ih]
      constructor
      · intro h i hi
        rcases Nat.lt_succ_iff_lt_or_eq.mp hi with h' | h'
        · exact h i h'
        · exact h' ▸ hn
      · intro h i hi
        exact h i (by omega)

lemma findHighestIdx_eq_some_iff (bm : Nat → Bool) (n i : Nat) :
    findHighestIdx bm n = some i ↔
      (i < n ∧ bm i = true ∧ ∀ j, i < j → j < n → bm j = false) := by
  induction n with
  | zero => simp [findHighestIdx]
  | succ n ih =>
    unfold findHighestIdx
    by_cases hn : bm n = true
    · simp only [hn, if_true, Option.some_inj]
      constructor
      · rintro rfl
        exact ⟨Nat.lt_succ_self _, hn, fun j hj hj' => by omega⟩
      · rintro ⟨h1, h2, h3⟩
        by_contra hne
        have hi : i < n := by omega
        rw [h3 n hi (Nat.lt_succ_self n)] at hn
        exact absurd hn (by simp)
    · rw [Bool.not_eq_true] at hn
      simp only [hn, Bool.false_eq_true, if_false, ih]
      constructor
      · rintro ⟨h1, h2, h3⟩
        refine ⟨by omega, h2, fun j hj hj' => ?_⟩
        rcases Nat.lt_succ_iff_lt_or_eq.mp hj' with h' | h'
        · exact h3 j hj h'
        · exact h' ▸ hn
      · rintro ⟨h1, h2, h3⟩
        have hin : i ≠ n := by
          rintro rfl
          rw [h2] at hn
          exact absurd hn (by simp)
        exact ⟨by omega, h2, fun j hj hj' => h3 j hj (by omega)⟩

lemma findLowestIdx_mem (bm : Nat → Bool) (n m : Nat)
    (h : findLowestIdx bm n = some m) : m < n ∧ bm m = true := by
  induction n with
  | zero => simp [findLowestIdx] at h
  | succ n ih =>
    unfold findLowestIdx at h
    rcases hf : findLowestIdx bm n with _ | k
    · rw [hf] at h
      simp only [] at h
      by_cases hn : bm n = true
      · rw [if_pos hn] at h
        obtain rfl : n = m := Option.some_inj.mp h
        exact ⟨Nat.lt_succ_self _, hn⟩
      · rw [if_neg hn] at h
        exact absurd h (by simp)
    · rw [hf] at h
      simp only [Option.some_inj] at h
      subst h
      obtain ⟨h1, h2⟩ := ih hf
      exact ⟨by omega, h2⟩

lemma findLowestIdx_eq_none_iff (bm : Nat → Bool) (n : Nat) :
    findLowestIdx bm n = none ↔ ∀ i, i < n → bm i = false := by
  induction n with
  | zero => simp [findLowestIdx]
  | succ n ih =>
    unfold findLowestIdx
    rcases hfound : findLowestIdx bm n with _ | m
    · have hnone := ih.mp hfound
      by_cases hn : bm n = true
      · simp only [hn, if_true]
        constructor
        · intro h
          exact absurd h (by simp)
        · intro h
          rw [h n (Nat.lt_succ_self n)] at hn
          exact absurd hn (by simp)
      · rw [Bool.not_eq_true] at hn
        simp only [hn, Bool.false_eq_true, if_false]
        constructor
        · intro _ i hi
          rcases Nat.lt_succ_iff_lt_or_eq.mp hi with h' | h'
          · exact hnone i h'
          · exact h' ▸ hn
        · intro _
          trivial
    · obtain ⟨hm, hbm⟩ := findLowestIdx_mem bm n m hfound
      simp only [reduceCtorEq, false_iff, not_forall]
      exact ⟨m, by omega, by simp [hbm]⟩

lemma findLowestIdx_eq_some_iff (bm : Nat → Bool) (n i : Nat) :
    findLowestIdx bm n = some i ↔
      (i < n ∧ bm i = true ∧ ∀ j, j < i → bm j = false) := by
  induction n with
  | zero => simp [findLowestIdx]
  | succ n ih =>
    unfold findLowestIdx
    rcases hfound : findLowestIdx bm n with _ | m
    · have hnone := (findLowestIdx_eq_none_iff bm n).mp hfound
      by_cases hn : bm n = true
      · simp only [hn, if_true, Option.some_inj]
        constructor
        · rintro rfl
          exact ⟨Nat.lt_succ_self _, hn, fun j hj => hnone j (by omega)⟩
        · rintro ⟨h1, h2, h3⟩
          by_contra hne
          have hi : i < n := by omega
          rw [hnone i hi] at h2
          exact absurd h2 (by simp)
      · rw [Bool.not_eq_true] at hn
        simp only [hn, Bool.false_eq_true, if_false, reduceCtorEq, false_iff]
        rintro ⟨h1, h2, h3⟩
        rcases Nat.lt_succ_iff_lt_or_eq.mp h1 with h' | h'
        · rw [hnone i h'] at h2
          exact absurd h2 (by simp)
        · subst h'
          rw [h2] at hn
          exact absurd hn (by simp)
    · obtain ⟨hm, hbm⟩ := findLowestIdx_mem bm n m hfound
      simp only [Option.some_inj]
      constructor
      · rintro rfl
        obtain ⟨_, h2, h3⟩ := ih.mp hfound
        exact ⟨by omega, h2, h3⟩
      · rintro ⟨h1, h2, h3⟩
        have hi : i < n := by
          rcases Nat.lt_succ_iff_lt_or_eq.mp h1 with h' | h'
          · exact h'
          · subst h'
            rw [h3 m hm] at hbm
            exact absurd hbm (by simp)
        have := ih.mpr ⟨hi, h2, h3⟩
        rw [hfound] at this
        exact Option.some_inj.mp this

@[simp] lemma volAt_def (s : Book) (side : Side) (i : Nat) :
    s.volAt side i = (s.getS side).vol i := rfl

@[simp] lemma bitAt_def (s : Book) (side : Side) (i : Nat) :
    s.bitAt side i = (s.getS side).bit i := rfl

@[simp] lemma qAt_def (s : Book) (side : Side) (i : Nat) :
    s.qAt side i = (s.getS side).q i := rfl

@[simp] lemma bestOf_def (s : Book) (side : Side) :
    s.bestOf side = (s.getS side).best := rfl

@[simp] lemma updFn_updFn {α : Type} (f : Nat → α) (i : Nat) (a b : α) :
    updFn (updFn f i a) i b = updFn f i b := by
  funext j
  by_cases h : j = i <;> simp [updFn, h]

lemma findHighestIdx_updFn_true_none (bm : Nat → Bool) {n i : Nat}
    (h : findHighestIdx bm n = none) (hi : i < n) :
    findHighestIdx (updFn bm i true) n = some i := by
  rw [findHighestIdx_eq_some_iff]
  have hnone := (findHighestIdx_eq_none_iff bm n).mp h
  refine ⟨hi, by simp [updFn], fun j hj hj' => ?_⟩
  rw [updFn_other bm (by omega), hnone j hj']

lemma findHighestIdx_updFn_true_some (bm : Nat → Bool) {n m i : Nat}
    (h : findHighestIdx bm n = some m) (hi : i < n) :
    findHighestIdx (updFn bm i true) n = some (max m i) := by
  obtain ⟨hm, hbm, habove⟩ := (findHighestIdx_eq_some_iff bm n m).mp h
  rw [findHighestIdx_eq_some_iff]
  refine ⟨by omega, ?_, fun j hj hj' => ?_⟩
  · by_cases hle : i ≤ m
    · rw [Nat.max_eq_left hle]
      by_cases h2 : m = i
      · subst h2
        simp [updFn]
      · rw [updFn_other bm h2]
        exact hbm
    · rw [Nat.max_eq_right (by omega)]
      simp [updFn]
  · have hji : j ≠ i := by omega
    rw [updFn_other bm hji]
    exact habove j (by omega) hj'

lemma findHighestIdx_updFn_false_of_ne (bm : Nat → Bool) {n m i : Nat}
    (h : findHighestIdx bm n = some m) (hne : i ≠ m) :
    findHighestIdx (updFn bm i false) n = some m := by
  obtain ⟨hm, hbm, habove⟩ := (findHighestIdx_eq_some_iff bm n m).mp h
  rw [findHighestIdx_eq_some_iff]
  refine ⟨hm, ?_, fun j hj hj' => ?_⟩
  · rw [updFn_other bm (Ne.symm hne)]
    exact hbm
  · by_cases hji : j = i
    · simp [updFn, hji]
    · rw [updFn_other bm hji]
      exact habove j hj hj'

lemma findHighestIdx_updFn_false_of_none (bm : Nat → Bool) {n : Nat} (i : Nat)
    (h : findHighestIdx bm n = none) :
    findHighestIdx (updFn bm i false) n = none := by
  rw [findHighestIdx_eq_none_iff] at h ⊢
  intro j hj
  by_cases hji : j = i
  · simp [updFn, hji]
  · rw [updFn_other bm hji]
    exact h j hj

lemma findLowestIdx_updFn_true_none (bm : Nat → Bool) {n i : Nat}
    (h : findLowestIdx bm n = none) (hi : i < n) :
    findLowestIdx (updFn bm i true) n = some i := by
  rw [findLowestIdx_eq_some_iff]
  have hnone := (findLowestIdx_eq_none_iff bm n).mp h
  refine ⟨hi, by simp [updFn], fun j hj => ?_⟩
  rw [updFn_other bm (by omega), hnone j (by omega)]

lemma findLowestIdx_updFn_true_some (bm : Nat → Bool) {n m i : Nat}
    (h : findLowestIdx bm n = some m) (hi : i < n) :
    findLowestIdx (updFn bm i true) n = some (min m i) := by
  obtain ⟨hm, hbm, hbelow⟩ := (findLowestIdx_eq_some_iff bm n m).mp h
  rw [findLowestIdx_eq_some_iff]
  refine ⟨by omega, ?_, fun j hj => ?_⟩
  · by_cases hle : m ≤ i
    · rw [Nat.min_eq_left hle]
      by_cases h2 : m = i
      · subst h2
        simp [updFn]
      · rw [updFn_other bm h2]
        exact hbm
    · rw [Nat.min_eq_right (by omega)]
      simp [updFn]
  · have hji : j ≠ i := by omega
    rw [updFn_other bm hji]
    exact hbelow j (by omega)

lemma findLowestIdx_updFn_false_of_ne (bm : Nat → Bool) {n m i : Nat}
    (h : findLowestIdx bm n = some m) (hne : i ≠ m) :
    findLowestIdx (updFn bm i false) n = some m := by
  obtain ⟨hm, hbm, hbelow⟩ := (findLowestIdx_eq_some_iff bm n m).mp h
  rw [findLowestIdx_eq_some_iff]
  refine ⟨hm, ?_, fun j hj => ?_⟩
  · rw [updFn_other bm (Ne.symm hne)]
    exact hbm
  · by_cases hji : j = i
    · simp [updFn, hji]
    · rw [updFn_other bm hji]
      exact hbelow j hj

lemma findLowestIdx_updFn_false_of_none (bm : Nat → Bool) {n : Nat} (i : Nat)
    (h : findLowestIdx bm n = none) :
    findLowestIdx (updFn bm i false) n = none := by
  rw [findLowestIdx_eq_none_iff] at h ⊢
  intro j hj
  by_cases hji : j = i
  · simp [updFn, hji]
  · rw [updFn_other bm hji]
    exact h j hj

/-! ### Component stability of the small operations -/

@[simp] lemma vol_setBestB (s : Book) (side : Side) (ob : Option Int) (side2 : Side) :
    ((s.setBestB side ob).getS side2).vol = (s.getS side2).vol := by
  cases side <;> cases side2 <;> rfl

@[simp] lemma bit_setBestB (s : Book) (side : Side) (ob : Option Int) (side2 : Side) :
    ((s.setBestB side ob).getS side2).bit = (s.getS side2).bit := by
  cases side <;> cases side2 <;> rfl

@[simp] lemma q_setBestB (s : Book) (side : Side) (ob : Option Int) (side2 : Side) :
    ((s.setBestB side ob).getS side2).q = (s.getS side2).q := by
  cases side <;> cases side2 <;> rfl

@[simp] lemma vol_setBitB (s : Book) (side : Side) (i : Nat) (b : Bool) (side2 : Side) :
    ((s.setBitB side i b).getS side2).vol = (s.getS side2).vol := by
  cases side <;> cases side2 <;> rfl

@[simp] lemma q_setBitB (s : Book) (side : Side) (i : Nat) (b : Bool) (side2 : Side) :
    ((s.setBitB side i b).getS side2).q = (s.getS side2).q := by
  cases side <;> cases side2 <;> rfl

@[simp] lemma best_setBitB (s : Book) (side : Side) (i : Nat) (b : Bool) (side2 : Side) :
    ((s.setBitB side i b).getS side2).best = (s.getS side2).best := by
  cases side <;> cases side2 <;> rfl

@[simp] lemma bit_addVol (s : Book) (side : Side) (i : Nat) (dv : Int) (side2 : Side) :
    ((s.addVol side i dv).getS side2).bit = (s.getS side2).bit := by
  cases side <;> cases side2 <;> rfl

@[simp] lemma q_addVol (s : Book) (side : Side) (i : Nat) (dv : Int) (side2 : Side) :
    ((s.addVol side i dv).getS side2).q = (s.getS side2).q := by
  cases side <;> cases side2 <;> rfl

@[simp] lemma best_addVol (s : Book) (side : Side) (i : Nat) (dv : Int) (side2 : Side) :
    ((s.addVol side i dv).getS side2).best = (s.getS side2).best := by
  cases side <;> cases side2 <;> rfl

@[simp] lemma vol_setQAt (s : Book) (side : Side) (i : Nat) (l : List Nat) (side2 : Side) :
    ((s.setQAt side i l).getS side2).vol = (s.getS side2).vol := by
  cases side <;> cases side2 <;> rfl

@[simp] lemma bit_setQAt (s : Book) (side : Side) (i : Nat) (l : List Nat) (side2 : Side) :
    ((s.setQAt side i l).getS side2).bit = (s.getS side2).bit := by
  cases side <;> cases side2 <;> rfl

@[simp] lemma best_setQAt (s : Book) (side : Side) (i : Nat) (l : List Nat) (side2 : Side) :
    ((s.setQAt side i l).getS side2).best = (s.getS side2).best := by
  cases side <;> cases side2 <;> rfl

@[simp] lemma vol_pushQ (s : Book) (side : Side) (i oid : Nat) (side2 : Side) :
    ((s.pushQ side i oid).getS side2).vol = (s.getS side2).vol := by
  simp [Book.pushQ]

@[simp] lemma bit_pushQ (s : Book) (side : Side) (i oid : Nat) (side2 : Side) :
    ((s.pushQ side i oid).getS side2).bit = (s.getS side2).bit := by
  simp [Book.pushQ]

@[simp] lemma best_pushQ (s : Book) (side : Side) (i oid : Nat) (side2 : Side) :
    ((s.pushQ side i oid).getS side2).best = (s.getS side2).best := by
  simp [Book.pushQ]

@[simp] lemma vol_eraseQ (s : Book) (side : Side) (i oid : Nat) (side2 : Side) :
    ((s.eraseQ side i oid).getS side2).vol = (s.getS side2).vol := by
  simp [Book.eraseQ]

@[simp] lemma bit_eraseQ (s : Book) (side : Side) (i oid : Nat) (side2 : Side) :
    ((s.eraseQ side i oid).getS side2).bit = (s.getS side2).bit := by
  simp [Book.eraseQ]

@[simp] lemma best_eraseQ (s : Book) (side : Side) (i oid : Nat) (side2 : Side) :
    ((s.eraseQ side i oid).getS side2).best = (s.getS side2).best := by
  simp [Book.eraseQ]

@[simp] lemma vol_markInQueue (s : Book) (oid : Nat) (b : Bool) (side2 : Side) :
    ((s.markInQueue oid b).getS side2).vol = (s.getS side2).vol := by
  simp

@[simp] lemma vol_ensureBest (side : Side) (t : Int) (s : Book) (side2 : Side) :
    ((ensureBest side t s).getS side2).vol = (s.getS side2).vol := by
  unfold ensureBest
  split <;> simp

@[simp] lemma bit_ensureBest (side : Side) (t : Int) (s : Book) (side2 : Side) :
    ((ensureBest side t s).getS side2).bit = (s.getS side2).bit := by
  unfold ensureBest
  split <;> simp

@[simp] lemma q_ensureBest (side : Side) (t : Int) (s : Book) (side2 : Side) :
    ((ensureBest side t s).getS side2).q = (s.getS side2).q := by
  unfold ensureBest
  split <;> simp

@[simp] lemma orders_ensureBest (side : Side) (t : Int) (s : Book) :
    (ensureBest side t s).orders = s.orders := by
  unfold ensureBest
  split <;> simp [Book.setBestB]

lemma best_ensureBest_same (side : Side) (t : Int) (s : Book) :
    ((ensureBest side t s).getS side).best =
      if betterB side t ((s.getS side).best) then some t else (s.getS side).best := by
  unfold ensureBest
  split <;> simp_all

@[simp] lemma vol_refreshIfEmpty (P : Params) (side : Side) (p : Int) (i : Nat) (s : Book)
    (side2 : Side) :
    ((refreshIfEmpty P side p i s).getS side2).vol = (s.getS side2).vol := by
  unfold refreshIfEmpty
  split <;> simp

@[simp] lemma bit_refreshIfEmpty (P : Params) (side : Side) (p : Int) (i : Nat) (s : Book)
    (side2 : Side) :
    ((refreshIfEmpty P side p i s).getS side2).bit = (s.getS side2).bit := by
  unfold refreshIfEmpty
  split <;> simp

@[simp] lemma q_refreshIfEmpty (P : Params) (side : Side) (p : Int) (i : Nat) (s : Book)
    (side2 : Side) :
    ((refreshIfEmpty P side p i s).getS side2).q = (s.getS side2).q := by
  unfold refreshIfEmpty
  split <;> simp

@[simp] lemma orders_refreshIfEmpty (P : Params) (side : Side) (p : Int) (i : Nat) (s : Book) :
    (refreshIfEmpty P side p i s).orders = s.orders := by
  unfold refreshIfEmpty
  split <;> simp [Book.setBestB]

lemma best_refreshIfEmpty_same (P : Params) (side : Side) (p : Int) (i : Nat) (s : Book) :
    ((refreshIfEmpty P side p i s).getS side).best =
      if (s.getS side).vol i = 0 ∧ (s.getS side).best = some p then
        scanBest P side (s.getS side).bit
      else (s.getS side).best := by
  unfold refreshIfEmpty
  split
  · rename_i h
    simp only [volAt_def, bestOf_def] at h
    rw [if_pos h]
    simp
  · rename_i h
    simp only [volAt_def, bestOf_def] at h
    rw [if_neg h]

@[simp] lemma vol_syncBit (s : Book) (side : Side) (i : Nat) (side2 : Side) :
    ((syncBit s side i).getS side2).vol = (s.getS side2).vol := by
  simp [syncBit]

@[simp] lemma q_syncBit (s : Book) (side : Side) (i : Nat) (side2 : Side) :
    ((syncBit s side i).getS side2).q = (s.getS side2).q := by
  simp [syncBit]

@[simp] lemma best_syncBit (s : Book) (side : Side) (i : Nat) (side2 : Side) :
    ((syncBit s side i).getS side2).best = (s.getS side2).best := by
  simp [syncBit]

@[simp] lemma orders_syncBit (s : Book) (side : Side) (i : Nat) :
    (syncBit s side i).orders = s.orders := by
  simp [syncBit]

lemma bit_syncBit_same (s : Book) (side : Side) (i : Nat) :
    ((syncBit s side i).getS side).bit =
      updFn (s.getS side).bit i (decide ((s.getS side).vol i ≠ 0)) := by
  simp [syncBit]

@[simp] lemma vol_removeFromFifo (cfg : Config) (side : Side) (i oid : Nat) (s : Book)
    (side2 : Side) :
    ((removeFromFifo cfg side i oid s).getS side2).vol = (s.getS side2).vol := by
  unfold removeFromFifo
  repeat' split
  all_goals simp

@[simp] lemma bit_removeFromFifo (cfg : Config) (side : Side) (i oid : Nat) (s : Book)
    (side2 : Side) :
    ((removeFromFifo cfg side i oid s).getS side2).bit = (s.getS side2).bit := by
  unfold removeFromFifo
  repeat' split
  all_goals simp

@[simp] lemma best_removeFromFifo (cfg : Config) (side : Side) (i oid : Nat) (s : Book)
    (side2 : Side) :
    ((removeFromFifo cfg side i oid s).getS side2).best = (s.getS side2).best := by
  unfold removeFromFifo
  repeat' split
  all_goals simp

@[simp] lemma vol_pushToFifo (cfg : Config) (side : Side) (i oid : Nat) (v : Int) (s : Book)
    (side2 : Side) :
    ((pushToFifo cfg side i oid v s).getS side2).vol = (s.getS side2).vol := by
  unfold pushToFifo
  split <;> simp

@[simp] lemma bit_pushToFifo (cfg : Config) (side : Side) (i oid : Nat) (v : Int) (s : Book)
    (side2 : Side) :
    ((pushToFifo cfg side i oid v s).getS side2).bit = (s.getS side2).bit := by
  unfold pushToFifo
  split <;> simp

@[simp] lemma best_pushToFifo (cfg : Config) (side : Side) (i oid : Nat) (v : Int) (s : Book)
    (side2 : Side) :
    ((pushToFifo cfg side i oid v s).getS side2).best = (s.getS side2).best := by
  unfold pushToFifo
  split <;> simp

@[simp] lemma vol_moveToBackF (cfg : Config) (side : Side) (i oid : Nat) (s : Book)
    (side2 : Side) :
    ((moveToBackF cfg side i oid s).getS side2).vol = (s.getS side2).vol := by
  unfold moveToBackF
  repeat' split
  all_goals simp [Book.pushQ, Book.eraseQ]

@[simp] lemma bit_moveToBackF (cfg : Config) (side : Side) (i oid : Nat) (s : Book)
    (side2 : Side) :
    ((moveToBackF cfg side i oid s).getS side2).bit = (s.getS side2).bit := by
  unfold moveToBackF
  repeat' split
  all_goals simp [Book.pushQ, Book.eraseQ]

@[simp] lemma best_moveToBackF (cfg : Config) (side : Side) (i oid : Nat) (s : Book)
    (side2 : Side) :
    ((moveToBackF cfg side i oid s).getS side2).best = (s.getS side2).best := by
  unfold moveToBackF
  repeat' split
  all_goals simp [Book.pushQ, Book.eraseQ]

/-! ### Queue and order-map effects, index arithmetic, scan congruence -/

lemma q_pushQ_same (s : Book) (side : Side) (i oid : Nat) :
    ((s.pushQ side i oid).getS side).q =
      updFn (s.getS side).q i ((s.getS side).q i ++ [oid]) := by
  simp [Book.pushQ]

lemma q_pushQ_other (s : Book) {side side2 : Side} (h : side2 ≠ side) (i oid : Nat) :
    ((s.pushQ side i oid).getS side2).q = (s.getS side2).q := by
  simp [Book.pushQ, Book.setQAt, getS_setS_other _ h]

lemma q_eraseQ_same (s : Book) (side : Side) (i oid : Nat) :
    ((s.eraseQ side i oid).getS side).q =
      updFn (s.getS side).q i (((s.getS side).q i).erase oid) := by
  simp [Book.eraseQ]

lemma q_eraseQ_other (s : Book) {side side2 : Side} (h : side2 ≠ side) (i oid : Nat) :
    ((s.eraseQ side i oid).getS side2).q = (s.getS side2).q := by
  simp [Book.eraseQ, Book.setQAt, getS_setS_other _ h]

lemma orders_markInQueue_of_some (s : Book) {oid : Nat} {r : OrderRec} (b : Bool)
    (h : s.orders oid = some r) :
    (s.markInQueue oid b).orders = updFn s.orders oid (some { r with inQueue := b }) := by
  unfold Book.markInQueue
  rw [h]
  rfl

lemma orders_pushQ_of_some (s : Book) (side : Side) (i : Nat) {oid : Nat} {r : OrderRec}
    (h : s.orders oid = some r) :
    (s.pushQ side i oid).orders = updFn s.orders oid (some { r with inQueue := true }) := by
  unfold Book.pushQ
  rw [orders_markInQueue_of_some _ _ (by simpa [Book.setQAt] using h)]
  simp [Book.setQAt]

lemma orders_eraseQ_of_some (s : Book) (side : Side) (i : Nat) {oid : Nat} {r : OrderRec}
    (h : s.orders oid = some r) :
    (s.eraseQ side i oid).orders = updFn s.orders oid (some { r with inQueue := false }) := by
  unfold Book.eraseQ
  rw [orders_markInQueue_of_some _ _ (by simpa [Book.setQAt] using h)]
  simp [Book.setQAt]

lemma toIdx_lt_N {P : Params} (hwf : P.wf) {t : Int} (ht : inRange P t = true) :
    toIdx P t < P.N := by
  obtain ⟨h1, h2, h3, h4⟩ := hwf
  simp only [inRange, Bool.and_eq_true, decide_eq_true_eq] at ht
  simp only [toIdx]
  omega

lemma idxTick_toIdx {P : Params} (hwf : P.wf) {t : Int} (ht : inRange P t = true) :
    idxTick P (toIdx P t) = t := by
  obtain ⟨h1, h2, h3, h4⟩ := hwf
  simp only [inRange, Bool.and_eq_true, decide_eq_true_eq] at ht
  simp only [toIdx, idxTick]
  omega

lemma toIdx_inj {P : Params} (hwf : P.wf) {t t2 : Int} (ht : inRange P t = true)
    (ht2 : inRange P t2 = true) (hne : t ≠ t2) : toIdx P t ≠ toIdx P t2 := by
  obtain ⟨h1, h2, h3, h4⟩ := hwf
  simp only [inRange, Bool.and_eq_true, decide_eq_true_eq] at ht ht2
  simp only [toIdx]
  omega

lemma findHighestIdx_congr {bm1 bm2 : Nat → Bool} {n : Nat}
    (h : ∀ j, j < n → bm1 j = bm2 j) :
    findHighestIdx bm1 n = findHighestIdx bm2 n := by
  induction n with
  | zero => rfl
  | succ n ih =>
    unfold findHighestIdx
    rw [h n (Nat.lt_succ_self n), ih (fun j hj => h j (by omega))]

lemma findLowestIdx_congr {bm1 bm2 : Nat → Bool} {n : Nat}
    (h : ∀ j, j < n → bm1 j = bm2 j) :
    findLowestIdx bm1 n = findLowestIdx bm2 n := by
  induction n with
  | zero => rfl
  | succ n ih =>
    unfold findLowestIdx
    rw [h n (Nat.lt_succ_self n), ih (fun j hj => h j (by omega))]

lemma scanBest_congr {P : Params} (side : Side) {bm1 bm2 : Nat → Bool}
    (h : ∀ j, j < P.N → bm1 j = bm2 j) :
    scanBest P side bm1 = scanBest P side bm2 := by
  cases side <;> simp [scanBest, scanIdx, findHighestIdx_congr h, findLowestIdx_congr h]

/-! ### Effect characterisation of `insert_order_impl` -/

lemma insertImpl_char (P : Params) (cfg : Config) (side : Side) (t : Int) (oid : Nat)
    (v : Int) (s : Book) (hid : s.orders oid = none) (ht : inRange P t = true) :
    insertImpl P cfg side t oid v s =
      some (insertPlace P cfg side t oid v (s.setOrder oid (some ⟨t, v, false⟩))) := by
  unfold insertImpl
  rw [hid]
  simp [ht]

lemma insertImpl_oor_char (P : Params) (cfg : Config) (side : Side) (t : Int) (oid : Nat)
    (v : Int) (s : Book) (hid : s.orders oid = none) (ht : inRange P t = false)
    (hbp : cfg.bpDiscard = true) :
    insertImpl P cfg side t oid v s = some (s.setOrder oid (some ⟨t, v, false⟩)) := by
  unfold insertImpl
  rw [hid]
  simp [ht, hbp]

lemma insertPlace_vol (P : Params) (cfg : Config) (side : Side) (t : Int) (oid : Nat)
    (v : Int) (s1 : Book) :
    ((insertPlace P cfg side t oid v s1).getS side).vol =
      updFn (s1.getS side).vol (toIdx P t) ((s1.getS side).vol (toIdx P t) + v) := by
  simp only [insertPlace]
  split_ifs <;> simp

lemma insertPlace_bit (P : Params) (cfg : Config) (side : Side) (t : Int) (oid : Nat)
    (v : Int) (s1 : Book) :
    ((insertPlace P cfg side t oid v s1).getS side).bit =
      updFn (s1.getS side).bit (toIdx P t) true := by
  simp only [insertPlace]
  split_ifs <;> simp

lemma insertPlace_q (P : Params) (cfg : Config) (side : Side) (t : Int) (oid : Nat)
    (v : Int) (s1 : Book) :
    ((insertPlace P cfg side t oid v s1).getS side).q =
      if cfg.fifo then
        updFn (s1.getS side).q (toIdx P t) ((s1.getS side).q (toIdx P t) ++ [oid])
      else (s1.getS side).q := by
  simp only [insertPlace]
  split_ifs <;> simp [q_pushQ_same]

lemma insertPlace_best (P : Params) (cfg : Config) (side : Side) (t : Int) (oid : Nat)
    (v : Int) (s1 : Book) :
    ((insertPlace P cfg side t oid v s1).getS side).best =
      if betterB side t ((s1.getS side).best) then some t else (s1.getS side).best := by
  simp only [insertPlace]
  by_cases hf : cfg.fifo = true <;>
    simp only [hf, Bool.false_eq_true, if_true, if_false] <;>
    split <;>
    rename_i hb <;>
    simp only [bestOf_def, best_pushQ, best_addVol] at hb <;>
    simp [hb]

lemma insertPlace_other (P : Params) (cfg : Config) {side side2 : Side} (h : side2 ≠ side)
    (t : Int) (oid : Nat) (v : Int) (s1 : Book) :
    (insertPlace P cfg side t oid v s1).getS side2 = s1.getS side2 := by
  simp only [insertPlace]
  by_cases hf : cfg.fifo = true <;>
    simp only [hf, Bool.false_eq_true, if_true, if_false] <;>
    split <;>
    simp [Book.addVol, Book.setBitB, Book.setBestB, Book.setQAt, Book.pushQ,
      getS_setS_other _ h]

lemma insertPlace_orders (P : Params) (cfg : Config) (side : Side) (t : Int) {oid : Nat}
    (v : Int) (s1 : Book) {r : OrderRec} (h : s1.orders oid = some r) :
    (insertPlace P cfg side t oid v s1).orders =
      if cfg.fifo then updFn s1.orders oid (some { r with inQueue := true })
      else s1.orders := by
  have h2 : (s1.addVol side (toIdx P t) v).orders oid = some r := by
    rw [orders_addVol]
    exact h
  simp only [insertPlace]
  by_cases hf : cfg.fifo = true <;>
    simp only [hf, Bool.false_eq_true, if_true, if_false] <;>
    split <;>
    simp [orders_pushQ_of_some _ _ _ h2]

/-! ### Observation helpers for closed concrete statements -/

def ordersProj (ob : Option Book) (oid : Nat) : Option (Option OrderRec) :=
  ob.map (fun s => s.orders oid)

def bitProj (ob : Option Book) (side : Side) (i : Nat) : Option Bool :=
  ob.map (fun s => (s.getS side).bit i)

def volProj (ob : Option Book) (side : Side) (i : Nat) : Option Int :=
  ob.map (fun s => (s.getS side).vol i)

def bestProj (ob : Option Book) (side : Side) : Option (Option Int) :=
  ob.map (fun s => (s.getS side).best)

def qProj (ob : Option Book) (side : Side) (i : Nat) : Option (List Nat) :=
  ob.map (fun s => (s.getS side).q i)

/-! ### Claim C2 -/

/-- C2: under the Discard bounds policy an out-of-range `insert` leaves every
price level, both bitmaps and both best caches untouched — but it does create
a record in the order index (the `try_emplace` happens before the bounds
check), with the normalised tick stored.  This is the amended form: the
original claim's "no record is created in the order index" is refuted by
`claim_C2_counterexample`. -/
theorem claim_C2 (P : Params) (cfg : Config) (side : Side) (t : Int) (oid : Nat) (v : Int)
    (s s2 : Book) (hbp : cfg.bpDiscard = true) (ht : inRange P t = false)
    (hid : s.orders oid = none)
    (hrun : insertImpl P cfg side t oid v s = some s2) :
    s2.orders oid = some ⟨t, v, false⟩
      ∧ s2.bid = s.bid ∧ s2.ask = s.ask
      ∧ (∀ j, j ≠ oid → s2.orders j = s.orders j) := by
  rw [insertImpl_oor_char P cfg side t oid v s hid ht hbp] at hrun
  obtain rfl : s.setOrder oid (some ⟨t, v, false⟩) = s2 := Option.some_inj.mp hrun
  refine ⟨by simp, rfl, rfl, fun j hj => ?_⟩
  simp [Book.setOrder, updFn_other _ hj]

/-- C2 witness: the amended statement at the spec's concrete scenario 7
(`insert_bid(89, o)` on a fresh Discard-policy book). -/
theorem claim_C2_witness :
    (freshBook.setOrder 1 (some ⟨89, 10, false⟩)).orders 1 = some ⟨89, 10, false⟩
      ∧ (freshBook.setOrder 1 (some ⟨89, 10, false⟩)).bid = freshBook.bid
      ∧ (freshBook.setOrder 1 (some ⟨89, 10, false⟩)).ask = freshBook.ask
      ∧ (∀ j, j ≠ 1 → (freshBook.setOrder 1 (some ⟨89, 10, false⟩)).orders j
          = freshBook.orders j) :=
  claim_C2 P48 cfgDiscard Side.bid 89 1 10 freshBook _
    rfl (by decide) rfl
    (insertImpl_oor_char P48 cfgDiscard Side.bid 89 1 10 freshBook rfl (by decide) rfl)

/-- C2 counterexample to the claim as stated: `insert_bid(89, {id:1, v:10})`
on a fresh Discard-policy book (window `[86,133]`, daily range `[90,130]`)
does create an order-index record for id 1, so the insert is not a complete
no-op on the book's observable state. -/
theorem claim_C2_counterexample :
    ordersProj (insertImpl P48 cfgDiscard Side.bid 89 1 10 freshBook) 1
        = some (some ⟨89, 10, false⟩)
      ∧ bitProj (insertImpl P48 cfgDiscard Side.bid 89 1 10 freshBook) Side.bid 3
        = some false
      ∧ volProj (insertImpl P48 cfgDiscard Side.bid 89 1 10 freshBook) Side.bid 3
        = some 0
      ∧ bestProj (insertImpl P48 cfgDiscard Side.bid 89 1 10 freshBook) Side.bid
        = some none := by
  decide

/-! ### Claim C3 -/

/-- C3: `bid_volume_at_tick` / `ask_volume_at_tick` assert
`daily_low <= tick <= daily_high` unconditionally — there is no Discard-policy
dispatch in these queries — so an out-of-range query is a contract violation
(`none` in this embedding) rather than a successful zero-volume read.  An
in-range query on a fresh book does return 0. -/
theorem claim_C3 :
    bidVolumeAtTick P48 freshBook 89 = none
      ∧ askVolumeAtTick P48 freshBook 89 = none
      ∧ bidVolumeAtTick P48 freshBook 131 = none
      ∧ askVolumeAtTick P48 freshBook 131 = none
      ∧ bidVolumeAtTick P48 freshBook 90 = some 0
      ∧ askVolumeAtTick P48 freshBook 130 = some 0 := by
  decide

/-! ### Claim C10 -/

lemma removeImpl_char (P : Params) (cfg : Config) (side : Side) (t : Int) (oid : Nat)
    (s : Book) (rec0 : OrderRec) (hid : s.orders oid = some rec0)
    (ht : inRange P t = true) :
    removeImpl P cfg side t oid s = some (removePlace P cfg side t oid rec0 s) := by
  unfold removeImpl
  rw [hid]
  simp [ht]

lemma removeImpl_oor_char (P : Params) (cfg : Config) (side : Side) (t : Int) (oid : Nat)
    (s : Book) (rec0 : OrderRec) (hid : s.orders oid = some rec0)
    (ht : inRange P t = false) (hbp : cfg.bpDiscard = true) :
    removeImpl P cfg side t oid s = some (s.setOrder oid none) := by
  unfold removeImpl
  rw [hid]
  simp [ht, hbp]

/-- C10: `remove_bid`/`remove_ask` index the price level by the
caller-supplied tick, subtracting the stored volume there: the level at the
supplied tick loses `rec0.volume`, the record is erased, the bitmap bit at
the supplied tick is cleared (with a best rescan when that tick was the best)
exactly when that level reaches zero, and every other level — in particular
the one at the order's stored tick, when it differs — keeps its volume. -/
theorem claim_C10 (P : Params) (cfg : Config) (side : Side) (t : Int) (oid : Nat)
    (s s2 : Book) (rec0 : OrderRec)
    (hfifo : cfg.fifo = false)
    (hid : s.orders oid = some rec0) (ht : inRange P t = true)
    (hrun : removeImpl P cfg side t oid s = some s2) :
    (s2.getS side).vol (toIdx P t) = (s.getS side).vol (toIdx P t) - rec0.volume
      ∧ s2.orders oid = none
      ∧ ((s.getS side).vol (toIdx P t) - rec0.volume ≠ 0 →
          (s2.getS side).bit = (s.getS side).bit
            ∧ (s2.getS side).best = (s.getS side).best)
      ∧ ((s.getS side).vol (toIdx P t) - rec0.volume = 0 →
          (s2.getS side).bit (toIdx P t) = false
            ∧ (s2.getS side).best =
                (if (s.getS side).best = some t then
                  scanBest P side (updFn (s.getS side).bit (toIdx P t) false)
                else (s.getS side).best))
      ∧ (∀ j, j ≠ toIdx P t → (s2.getS side).vol j = (s.getS side).vol j) := by
  rw [removeImpl_char P cfg side t oid s rec0 hid ht] at hrun
  obtain rfl : removePlace P cfg side t oid rec0 s = s2 := Option.some_inj.mp hrun
  simp only [removePlace, hfifo, Bool.false_and, Bool.false_eq_true, if_false]
  by_cases hw : (s.getS side).vol (toIdx P t) + -rec0.volume = 0
  · rw [if_pos (by simp [hw])]
    split
    · rename_i hb
      simp only [bestOf_def, best_setBitB, best_addVol] at hb
      refine ⟨by simp [updFn]; omega, by simp, fun hne => absurd (by omega) hne,
        fun _ => ⟨by simp [updFn], ?_⟩, fun j hj => by simp [updFn_other _ hj]⟩
      rw [if_pos (by simpa using hb)]
      simp
    · rename_i hb
      simp only [bestOf_def, best_setBitB, best_addVol] at hb
      refine ⟨by simp [updFn]; omega, by simp, fun hne => absurd (by omega) hne,
        fun _ => ⟨by simp [updFn], ?_⟩, fun j hj => by simp [updFn_other _ hj]⟩
      rw [if_neg (by simpa using hb)]
      simp
  · rw [if_neg (by simp [hw])]
    refine ⟨by simp [updFn]; omega, by simp, fun _ => ⟨by simp, by simp⟩,
      fun heq => absurd (by omega) hw, fun j hj => by simp [updFn_other _ hj]⟩

def c10Book : Book :=
  insertPlace P48 cfgDefault Side.bid 100 1 10 (freshBook.setOrder 1 (some ⟨100, 10, false⟩))

def c10After : Book := removePlace P48 cfgDefault Side.bid 105 1 ⟨100, 10, false⟩ c10Book

/-- C10 witness: remove at tick 105 of an order stored (and resting) at tick
100 with volume 10 drives the empty level at index `toIdx 105 = 19` to
volume −10 and leaves the volume at index `toIdx 100 = 14` in place. -/
theorem claim_C10_witness :
    (c10After.getS Side.bid).vol (toIdx P48 105)
        = (c10Book.getS Side.bid).vol (toIdx P48 105) - 10
      ∧ c10After.orders 1 = none
      ∧ (c10After.getS Side.bid).vol (toIdx P48 100)
        = (c10Book.getS Side.bid).vol (toIdx P48 100) := by
  have h := claim_C10 P48 cfgDefault Side.bid 105 1 c10Book c10After ⟨100, 10, false⟩
    rfl (by decide) (by decide)
    (removeImpl_char P48 cfgDefault Side.bid 105 1 c10Book ⟨100, 10, false⟩
      (by decide) (by decide))
  exact ⟨h.1, h.2.1, h.2.2.2.2 (toIdx P48 100) (by decide)⟩

/-! ### Claim C9 -/

lemma updateImpl_char (P : Params) (cfg : Config) (side : Side) (t : Int) (oid : Nat)
    (v : Int) (s : Book) (rec0 : OrderRec) (hid : s.orders oid = some rec0)
    (ht0 : inRange P rec0.tick = true) (ht : inRange P t = true) :
    updateImpl P cfg side t oid v s =
      some (updSame P cfg side t rec0.tick oid v rec0.volume
        (s.setOrder oid (some ⟨t, v, rec0.inQueue⟩))) := by
  unfold updateImpl
  rw [hid]
  cases hbp : cfg.bpDiscard <;> simp [ht0, ht]

/-- C9: in FIFO mode (zero-as-valid), a same-tick update of a resting,
queued order that strictly increases its volume moves it to the back of the
level's queue when it is at the head or interior (it has a successor), and a
same-tick update that strictly decreases the volume leaves the queue
unchanged.  Concretely, after inserting bids id 1, 2, 3 at tick 100 in that
order, updating id 1 to volume 25 makes the queue `[2, 3, 1]` (head id 2),
and then updating id 2 down to volume 15 keeps the queue `[2, 3, 1]`. -/
theorem claim_C9 (P : Params) (cfg : Config) (side : Side) (t : Int) (oid : Nat) (v : Int)
    (s s2 : Book) (rec0 : OrderRec)
    (hzp : cfg.zpDelete = false) (hfifo : cfg.fifo = true)
    (hid : s.orders oid = some rec0) (htick : rec0.tick = t)
    (ht : inRange P t = true) (hq : rec0.inQueue = true)
    (hrun : updateImpl P cfg side t oid v s = some s2) :
    ((rec0.volume < v → ((s.getS side).q (toIdx P t)).getLast? ≠ some oid →
        (s2.getS side).q = updFn (s.getS side).q (toIdx P t)
          (((s.getS side).q (toIdx P t)).erase oid ++ [oid]))
      ∧ (v < rec0.volume → (s2.getS side).q = (s.getS side).q))
    ∧ qProj ((((insertImpl P48 cfgFifo Side.bid 100 1 10 freshBook).bind
          (fun b => insertImpl P48 cfgFifo Side.bid 100 2 20 b)).bind
          (fun b => insertImpl P48 cfgFifo Side.bid 100 3 30 b)).bind
          (fun b => updateImpl P48 cfgFifo Side.bid 100 1 25 b)) Side.bid 14
        = some [2, 3, 1]
    ∧ qProj (((((insertImpl P48 cfgFifo Side.bid 100 1 10 freshBook).bind
          (fun b => insertImpl P48 cfgFifo Side.bid 100 2 20 b)).bind
          (fun b => insertImpl P48 cfgFifo Side.bid 100 3 30 b)).bind
          (fun b => updateImpl P48 cfgFifo Side.bid 100 1 25 b)).bind
          (fun b => updateImpl P48 cfgFifo Side.bid 100 2 15 b)) Side.bid 14
        = some [2, 3, 1] := by
  rw [updateImpl_char P cfg side t oid v s rec0 hid (htick ▸ ht) ht] at hrun
  obtain rfl := Option.some_inj.mp hrun
  subst htick
  refine ⟨⟨fun hinc hlast => ?_, fun hdec => ?_⟩, by decide, by decide⟩
  · simp only [updSame]
    rw [if_neg (show ¬(cfg.zpDelete = true ∧ v = 0) by simp [hzp])]
    simp only [if_neg (show ¬(rec0.tick ≠ rec0.tick) by simp), hfifo, if_true]
    rw [if_pos (show v - rec0.volume > 0 by omega)]
    unfold moveToBackF
    simp only [hfifo, if_true]
    have hord : (syncBit ((s.setOrder oid (some ⟨rec0.tick, v, rec0.inQueue⟩)).addVol side
        (toIdx P rec0.tick) (v - rec0.volume)) side (toIdx P rec0.tick)).orders oid
        = some ⟨rec0.tick, v, rec0.inQueue⟩ := by
      simp
    rw [hord]
    simp only [hq, if_true]
    rw [if_neg (show ¬((syncBit ((s.setOrder oid (some ⟨rec0.tick, v, true⟩)).addVol
        side (toIdx P rec0.tick) (v - rec0.volume)) side (toIdx P rec0.tick)).qAt side
        (toIdx P rec0.tick)).getLast? = some oid by simpa using hlast)]
    funext j
    by_cases hj : j = toIdx P rec0.tick
    · subst hj
      simp [q_pushQ_same, q_eraseQ_same, updFn]
    · simp [q_pushQ_same, q_eraseQ_same, updFn_other _ hj, updFn, hj]
  · simp only [updSame]
    rw [if_neg (show ¬(cfg.zpDelete = true ∧ v = 0) by simp [hzp])]
    simp only [if_neg (show ¬(rec0.tick ≠ rec0.tick) by simp), hfifo, if_true]
    rw [if_neg (show ¬(v - rec0.volume > 0) by omega)]
    simp

def c9Book : Book :=
  insertPlace P48 cfgFifo Side.bid 100 3 30
    ((insertPlace P48 cfgFifo Side.bid 100 2 20
      ((insertPlace P48 cfgFifo Side.bid 100 1 10
        (freshBook.setOrder 1 (some ⟨100, 10, false⟩))).setOrder 2
          (some ⟨100, 20, false⟩))).setOrder 3 (some ⟨100, 30, false⟩))

def c9After : Book :=
  updSame P48 cfgFifo Side.bid 100 100 1 25 10 (c9Book.setOrder 1 (some ⟨100, 25, true⟩))

/-- C9 witness: the general statement applied to the book holding bids
id 1, 2, 3 at tick 100: raising id 1's volume from 10 to 25 rewrites the
level-14 queue to `erase 1 ++ [1]`. -/
theorem claim_C9_witness :
    (c9After.getS Side.bid).q = updFn (c9Book.getS Side.bid).q (toIdx P48 100)
      (((c9Book.getS Side.bid).q (toIdx P48 100)).erase 1 ++ [1]) := by
  have h := claim_C9 P48 cfgFifo Side.bid 100 1 25 c9Book c9After ⟨100, 10, true⟩
    rfl rfl (by decide) rfl (by decide) rfl
    (updateImpl_char P48 cfgFifo Side.bid 100 1 25 c9Book ⟨100, 10, true⟩
      (by decide) (by decide) (by decide))
  exact h.1.1 (by decide) (by decide)

/-! ### Claim C4 -/

lemma Book.eq_of_components {s1 s2 : Book} (side : Side)
    (hsame : s1.getS side = s2.getS side)
    (hother : ∀ side2, side2 ≠ side → s1.getS side2 = s2.getS side2)
    (horders : s1.orders = s2.orders) : s1 = s2 := by
  cases side
  · exact Book.ext hsame (hother .ask (by simp)) horders
  · exact Book.ext (hother .bid (by simp)) hsame horders

lemma removePlace_other (P : Params) (cfg : Config) {side side2 : Side} (h : side2 ≠ side)
    (t : Int) (oid : Nat) (rec0 : OrderRec) (s : Book) :
    (removePlace P cfg side t oid rec0 s).getS side2 = s.getS side2 := by
  by_cases h1 : (cfg.fifo && rec0.inQueue) = true <;>
    simp only [removePlace, h1, Bool.false_eq_true, if_true, if_false] <;>
    split <;>
    first
      | (split <;>
          simp [Book.eraseQ, Book.setQAt, Book.addVol, Book.setBitB, Book.setBestB,
            getS_setS_other _ h])
      | simp [Book.eraseQ, Book.setQAt, Book.addVol, Book.setBitB, Book.setBestB,
          getS_setS_other _ h]

/-- The scan of the bid side never returns a tick whose window index has a
clear bit above every set bit; specialised: if the scan returns `some b`,
then `b` is the tick of a set bit. -/
lemma scanBest_eq_some {P : Params} {side : Side} {bm : Nat → Bool} {b : Int}
    (h : scanBest P side bm = some b) :
    ∃ m, m < P.N ∧ bm m = true ∧ b = idxTick P m := by
  cases side
  · simp only [scanBest, scanIdx] at h
    rcases hscan : findHighestIdx bm P.N with _ | m <;> rw [hscan] at h
    · simp at h
    · obtain ⟨h1, h2, _⟩ := (findHighestIdx_eq_some_iff bm P.N m).mp hscan
      refine ⟨m, h1, h2, ?_⟩
      simpa using h.symm
  · simp only [scanBest, scanIdx] at h
    rcases hscan : findLowestIdx bm P.N with _ | m <;> rw [hscan] at h
    · simp at h
    · obtain ⟨h1, h2, _⟩ := (findLowestIdx_eq_some_iff bm P.N m).mp hscan
      refine ⟨m, h1, h2, ?_⟩
      simpa using h.symm

/-- If `Inv2S` holds and the bit at the index of an in-range tick `t` is set,
then `t` is not better than the cached best. -/
lemma betterB_false_of_bit {P : Params} {side : Side} {ss : SideState} {t : Int}
    (hwf : P.wf) (hInv2 : Inv2S P side ss) (ht : inRange P t = true)
    (hbit : ss.bit (toIdx P t) = true) :
    betterB side t ss.best = false := by
  have hiN : toIdx P t < P.N := toIdx_lt_N hwf ht
  have htick := idxTick_toIdx hwf ht
  cases side
  · rcases hscan : findHighestIdx ss.bit P.N with _ | m
    · rw [findHighestIdx_eq_none_iff] at hscan
      rw [hscan (toIdx P t) hiN] at hbit
      exact absurd hbit (by simp)
    · obtain ⟨hm, hbm, habove⟩ := (findHighestIdx_eq_some_iff ss.bit P.N m).mp hscan
      have hbest : ss.best = some (idxTick P m) := by
        rw [hInv2]
        simp [scanIdx, hscan]
      rw [hbest]
      have hle : toIdx P t ≤ m := by
        by_contra hgt
        rw [habove (toIdx P t) (by omega) hiN] at hbit
        exact absurd hbit (by simp)
      simp only [betterB, decide_eq_false_iff_not, not_lt]
      rw [← htick]
      simp only [idxTick]
      omega
  · rcases hscan : findLowestIdx ss.bit P.N with _ | m
    · rw [findLowestIdx_eq_none_iff] at hscan
      rw [hscan (toIdx P t) hiN] at hbit
      exact absurd hbit (by simp)
    · obtain ⟨hm, hbm, hbelow⟩ := (findLowestIdx_eq_some_iff ss.bit P.N m).mp hscan
      have hbest : ss.best = some (idxTick P m) := by
        rw [hInv2]
        simp [scanIdx, hscan]
      rw [hbest]
      have hle : m ≤ toIdx P t := by
        by_contra hgt
        rw [hbelow (toIdx P t) (by omega)] at hbit
        exact absurd hbit (by simp)
      simp only [betterB, decide_eq_false_iff_not, not_lt]
      rw [← htick]
      simp only [idxTick]
      omega

lemma updFn_eq_self {α : Type} (f : Nat → α) (i : Nat) (a : α) (h : f i = a) :
    updFn f i a = f := by
  funext j
  by_cases hj : j = i
  · subst hj
    simp [updFn, h]
  · simp [updFn, hj]

lemma toIdx_idxTick (P : Params) (m : Nat) : toIdx P (idxTick P m) = m := by
  simp [toIdx, idxTick]

/-- Component characterisation of `removePlace` (level volumes). -/
lemma removePlace_vol (P : Params) (cfg : Config) (side : Side) (t : Int) (oid : Nat)
    (rec0 : OrderRec) (s : Book) :
    ((removePlace P cfg side t oid rec0 s).getS side).vol
      = updFn (s.getS side).vol (toIdx P t)
          ((s.getS side).vol (toIdx P t) + -rec0.volume) := by
  by_cases h1 : (cfg.fifo && rec0.inQueue) = true <;>
    simp only [removePlace, h1, Bool.false_eq_true, if_true, if_false] <;>
    split <;>
    first
      | (split <;> simp)
      | simp

/-- Component characterisation of `removePlace` (bitmap). -/
lemma removePlace_bit (P : Params) (cfg : Config) (side : Side) (t : Int) (oid : Nat)
    (rec0 : OrderRec) (s : Book) :
    ((removePlace P cfg side t oid rec0 s).getS side).bit
      = (if (s.getS side).vol (toIdx P t) + -rec0.volume = 0 then
          updFn (s.getS side).bit (toIdx P t) false
        else (s.getS side).bit) := by
  by_cases h1 : (cfg.fifo && rec0.inQueue) = true <;>
    simp only [removePlace, h1, Bool.false_eq_true, if_true, if_false]
  all_goals
    split
    · rename_i hc
      have hc2 : (s.getS side).vol (toIdx P t) + -rec0.volume = 0 := by simpa using hc
      rw [if_pos hc2]
      split <;> simp
    · rename_i hc
      have hc2 : ¬((s.getS side).vol (toIdx P t) + -rec0.volume = 0) := by simpa using hc
      rw [if_neg hc2]
      simp

/-- Component characterisation of `removePlace` (best cache). -/
lemma removePlace_best (P : Params) (cfg : Config) (side : Side) (t : Int) (oid : Nat)
    (rec0 : OrderRec) (s : Book) :
    ((removePlace P cfg side t oid rec0 s).getS side).best
      = (if (s.getS side).vol (toIdx P t) + -rec0.volume = 0 then
          (if (s.getS side).best = some t then
            scanBest P side (updFn (s.getS side).bit (toIdx P t) false)
          else (s.getS side).best)
        else (s.getS side).best) := by
  by_cases h1 : (cfg.fifo && rec0.inQueue) = true <;>
    simp only [removePlace, h1, Bool.false_eq_true, if_true, if_false]
  all_goals
    split
    · rename_i hc
      have hc2 : (s.getS side).vol (toIdx P t) + -rec0.volume = 0 := by simpa using hc
      rw [if_pos hc2]
      split
      · rename_i hb
        have hb2 : (s.getS side).best = some t := by simpa using hb
        rw [if_pos hb2]
        simp
      · rename_i hb
        have hb2 : ¬((s.getS side).best = some t) := by simpa using hb
        rw [if_neg hb2]
        simp
    · rename_i hc
      have hc2 : ¬((s.getS side).vol (toIdx P t) + -rec0.volume = 0) := by simpa using hc
      rw [if_neg hc2]
      simp

/-- Component characterisation of `removePlace` (FIFO queues). -/
lemma removePlace_q (P : Params) (cfg : Config) (side : Side) (t : Int) (oid : Nat)
    (rec0 : OrderRec) (s : Book) :
    ((removePlace P cfg side t oid rec0 s).getS side).q
      = (if (cfg.fifo && rec0.inQueue) = true then
          updFn (s.getS side).q (toIdx P t) (((s.getS side).q (toIdx P t)).erase oid)
        else (s.getS side).q) := by
  by_cases h1 : (cfg.fifo && rec0.inQueue) = true <;>
    simp only [removePlace, h1, Bool.false_eq_true, if_true, if_false]
  all_goals
    split
    · split <;> simp [q_eraseQ_same]
    · simp [q_eraseQ_same]

/-- Component characterisation of `removePlace` (order index). -/
lemma removePlace_orders (P : Params) (cfg : Config) (side : Side) (t : Int) (oid : Nat)
    (rec0 : OrderRec) (s : Book) :
    (removePlace P cfg side t oid rec0 s).orders = updFn s.orders oid none := by
  by_cases h1 : (cfg.fifo && rec0.inQueue) = true <;>
    simp only [removePlace, h1, Bool.false_eq_true, if_true, if_false]
  · have he3 : updFn (s.eraseQ side (toIdx P t) oid).orders oid none
        = updFn s.orders oid none := by
      have he : (s.eraseQ side (toIdx P t) oid).orders = (s.markInQueue oid false).orders := by
        unfold Book.eraseQ Book.markInQueue
        rcases hor : s.orders oid with _ | r <;> simp [Book.setQAt, hor]
      rw [he]
      unfold Book.markInQueue
      rcases hor : s.orders oid with _ | r
      · rfl
      · simp
    split
    · split <;> simp [he3]
    · simp [he3]
  · split
    · split <;> simp [Book.setBitB, Book.setBestB, Book.addVol, Book.setOrder]
    · simp [Book.setBitB, Book.addVol, Book.setOrder]

/-- C4 (amended): on a book state satisfying the bitmap/volume invariant P1
and the best-cache invariant P2/P3 on the operated side, for an in-range
tick, a fresh order id that is also absent from the level's FIFO queue,
`insert(t, o) ; remove(t, o)` restores the book exactly.  The original
claim over every book state is refuted by `claim_C4_counterexample`: a
reachable state (after a zero-volume insert) breaks it. -/
theorem claim_C4 (P : Params) (cfg : Config) (side : Side) (t : Int) (oid : Nat) (v : Int)
    (s : Book)
    (hwf : P.wf)
    (hInv1 : Inv1S P (s.getS side))
    (hInv2 : Inv2S P side (s.getS side))
    (hid : s.orders oid = none)
    (hq : oid ∉ (s.getS side).q (toIdx P t))
    (ht : inRange P t = true) :
    (insertImpl P cfg side t oid v s).bind (removeImpl P cfg side t oid) = some s := by
  have hiN : toIdx P t < P.N := toIdx_lt_N hwf ht
  rw [insertImpl_char P cfg side t oid v s hid ht, Option.some_bind]
  have hs1gs : ∀ side2, (s.setOrder oid (some ⟨t, v, false⟩)).getS side2 = s.getS side2 :=
    fun side2 => by simp
  have hidA : (insertPlace P cfg side t oid v (s.setOrder oid (some ⟨t, v, false⟩))).orders oid
      = some ⟨t, v, cfg.fifo⟩ := by
    rw [@insertPlace_orders P cfg side t oid v _ ⟨t, v, false⟩ (by simp)]
    cases hf : cfg.fifo <;> simp [Book.setOrder]
  rw [removeImpl_char P cfg side t oid _ ⟨t, v, cfg.fifo⟩ hidA ht]
  refine congrArg some ?_
  have hAvol : ((insertPlace P cfg side t oid v
        (s.setOrder oid (some ⟨t, v, false⟩))).getS side).vol
      = updFn (s.getS side).vol (toIdx P t) ((s.getS side).vol (toIdx P t) + v) := by
    rw [insertPlace_vol, hs1gs]
  have hAbit : ((insertPlace P cfg side t oid v
        (s.setOrder oid (some ⟨t, v, false⟩))).getS side).bit
      = updFn (s.getS side).bit (toIdx P t) true := by
    rw [insertPlace_bit, hs1gs]
  have hAq : ((insertPlace P cfg side t oid v
        (s.setOrder oid (some ⟨t, v, false⟩))).getS side).q
      = (if cfg.fifo then updFn (s.getS side).q (toIdx P t)
          ((s.getS side).q (toIdx P t) ++ [oid]) else (s.getS side).q) := by
    rw [insertPlace_q, hs1gs]
  have hAbest : ((insertPlace P cfg side t oid v
        (s.setOrder oid (some ⟨t, v, false⟩))).getS side).best
      = (if betterB side t ((s.getS side).best) then some t else (s.getS side).best) := by
    rw [insertPlace_best, hs1gs]
  have hAorders : (insertPlace P cfg side t oid v
        (s.setOrder oid (some ⟨t, v, false⟩))).orders
      = updFn s.orders oid (some ⟨t, v, cfg.fifo⟩) := by
    rw [@insertPlace_orders P cfg side t oid v _ ⟨t, v, false⟩ (by simp)]
    cases hf : cfg.fifo <;> simp [Book.setOrder]
  have hAother : ∀ side2, side2 ≠ side →
      (insertPlace P cfg side t oid v (s.setOrder oid (some ⟨t, v, false⟩))).getS side2
        = s.getS side2 :=
    fun side2 hne => by rw [insertPlace_other P cfg hne, hs1gs]
  -- assemble: the remove body undoes the insert on every component
  have hvolEq : ((removePlace P cfg side t oid ⟨t, v, cfg.fifo⟩
        (insertPlace P cfg side t oid v (s.setOrder oid (some ⟨t, v, false⟩)))).getS side).vol
      = (s.getS side).vol := by
    rw [removePlace_vol, hAvol]
    simp only [updFn_updFn, updFn_same]
    apply updFn_eq_self
    ring
  have hw : ((insertPlace P cfg side t oid v
        (s.setOrder oid (some ⟨t, v, false⟩))).getS side).vol (toIdx P t) + -v
      = (s.getS side).vol (toIdx P t) := by
    rw [hAvol]
    simp only [updFn_same]
    ring
  have hbitEq : ((removePlace P cfg side t oid ⟨t, v, cfg.fifo⟩
        (insertPlace P cfg side t oid v (s.setOrder oid (some ⟨t, v, false⟩)))).getS side).bit
      = (s.getS side).bit := by
    rw [removePlace_bit, hAbit]
    by_cases hv : (s.getS side).vol (toIdx P t) = 0
    · rw [if_pos (by rw [hw]; exact hv)]
      simp only [updFn_updFn]
      apply updFn_eq_self
      have := (hInv1 (toIdx P t) hiN)
      rcases hb : (s.getS side).bit (toIdx P t) with _ | _
      · rfl
      · exact absurd hv (this.mp hb)
    · rw [if_neg (by rw [hw]; exact hv)]
      apply updFn_eq_self
      exact (hInv1 (toIdx P t) hiN).mpr hv
  have hqEq : ((removePlace P cfg side t oid ⟨t, v, cfg.fifo⟩
        (insertPlace P cfg side t oid v (s.setOrder oid (some ⟨t, v, false⟩)))).getS side).q
      = (s.getS side).q := by
    rw [removePlace_q, hAq]
    cases hf : cfg.fifo
    · simp
    · simp only [Bool.and_self, if_true]
      simp only [updFn_updFn, updFn_same]
      apply updFn_eq_self
      rw [List.erase_append_right _ hq]
      simp
  have hbestEq : ((removePlace P cfg side t oid ⟨t, v, cfg.fifo⟩
        (insertPlace P cfg side t oid v (s.setOrder oid (some ⟨t, v, false⟩)))).getS side).best
      = (s.getS side).best := by
    rw [removePlace_best, hAbest]
    by_cases hv : (s.getS side).vol (toIdx P t) = 0
    · rw [if_pos (by rw [hw]; exact hv)]
      have hbitfalse : (s.getS side).bit (toIdx P t) = false := by
        rcases hb : (s.getS side).bit (toIdx P t) with _ | _
        · rfl
        · exact absurd hv ((hInv1 (toIdx P t) hiN).mp hb)
      have hscan : scanBest P side (updFn ((insertPlace P cfg side t oid v
            (s.setOrder oid (some ⟨t, v, false⟩))).getS side).bit (toIdx P t) false)
          = (s.getS side).best := by
        rw [hAbit]
        simp only [updFn_updFn]
        rw [@scanBest_congr P side _ ((s.getS side).bit) (fun j hj => by
          by_cases hji : j = toIdx P t
          · subst hji
            simp [updFn, hbitfalse]
          · simp [updFn, hji])]
        exact hInv2.symm
      by_cases hbb : betterB side t ((s.getS side).best) = true
      · rw [if_pos hbb, if_pos rfl, hscan]
      · rw [if_neg hbb]
        have hne : (s.getS side).best ≠ some t := by
          intro hbt
          have hst : scanBest P side (s.getS side).bit = some t := by
            have h0 : scanBest P side (s.getS side).bit = (s.getS side).best := hInv2.symm
            exact h0.trans hbt
          obtain ⟨m, hm, hbm, htm⟩ := scanBest_eq_some hst
          have : toIdx P t = m := by
            rw [htm, toIdx_idxTick]
          rw [← this] at hbm
          rw [hbitfalse] at hbm
          exact absurd hbm (by simp)
        rw [if_neg hne]
    · rw [if_neg (by rw [hw]; exact hv)]
      have hbt : (s.getS side).bit (toIdx P t) = true := (hInv1 (toIdx P t) hiN).mpr hv
      rw [betterB_false_of_bit hwf hInv2 ht hbt]
      simp
  have hordersEq : (removePlace P cfg side t oid ⟨t, v, cfg.fifo⟩
        (insertPlace P cfg side t oid v (s.setOrder oid (some ⟨t, v, false⟩)))).orders
      = s.orders := by
    rw [removePlace_orders, hAorders]
    simp only [updFn_updFn]
    exact updFn_eq_self _ _ _ hid
  refine Book.eq_of_components side (SideState.ext hbestEq hbitEq hvolEq hqEq)
    (fun side2 hne => ?_) hordersEq
  rw [removePlace_other P cfg hne, hAother side2 hne]

/-- C4 witness: the amended round-trip law at a concrete instance — insert
bid id 1, volume 10 at tick 100 into a fresh FIFO book, then remove it. -/
theorem claim_C4_witness :
    (insertImpl P48 cfgFifo Side.bid 100 1 10 freshBook).bind
      (removeImpl P48 cfgFifo Side.bid 100 1) = some freshBook :=
  claim_C4 P48 cfgFifo Side.bid 100 1 10 freshBook (by unfold Params.wf; decide)
    (by unfold Inv1S; decide) (by unfold Inv2S; decide) rfl (by decide) (by decide)

/-- C4 counterexample to the claim over every book state: the reachable
pre-state `insert_bid(100, {id 1, v 0})` (bit 14 set, best 100, volume 0);
inserting and then removing {id 2, v 5} at tick 100 from it clears bit 14 and
resets the best to no-value, so the book does not return to the pre-state. -/
theorem claim_C4_counterexample :
    bitProj (insertImpl P48 cfgDefault Side.bid 100 1 0 freshBook) Side.bid 14 = some true
      ∧ bestProj (insertImpl P48 cfgDefault Side.bid 100 1 0 freshBook) Side.bid
          = some (some 100)
      ∧ bitProj ((insertImpl P48 cfgDefault Side.bid 100 1 0 freshBook).bind
          (fun b => (insertImpl P48 cfgDefault Side.bid 100 2 5 b).bind
            (removeImpl P48 cfgDefault Side.bid 100 2))) Side.bid 14 = some false
      ∧ bestProj ((insertImpl P48 cfgDefault Side.bid 100 1 0 freshBook).bind
          (fun b => (insertImpl P48 cfgDefault Side.bid 100 2 5 b).bind
            (removeImpl P48 cfgDefault Side.bid 100 2))) Side.bid = some none := by
  decide

/-! ### Other-side stability of the composite operations -/

lemma getS_pushQ_other (s : Book) {side side2 : Side} (h : side2 ≠ side) (i oid : Nat) :
    (s.pushQ side i oid).getS side2 = s.getS side2 := by
  simp [Book.pushQ, Book.setQAt, getS_setS_other _ h]

lemma getS_eraseQ_other (s : Book) {side side2 : Side} (h : side2 ≠ side) (i oid : Nat) :
    (s.eraseQ side i oid).getS side2 = s.getS side2 := by
  simp [Book.eraseQ, Book.setQAt, getS_setS_other _ h]

lemma getS_syncBit_other (s : Book) {side side2 : Side} (h : side2 ≠ side) (i : Nat) :
    (syncBit s side i).getS side2 = s.getS side2 := by
  simp [syncBit, Book.setBitB, getS_setS_other _ h]

lemma getS_addVol_other2 (s : Book) {side side2 : Side} (h : side2 ≠ side) (i : Nat) (dv : Int) :
    (s.addVol side i dv).getS side2 = s.getS side2 := by
  simp [Book.addVol, getS_setS_other _ h]

lemma getS_ensureBest_other {side side2 : Side} (h : side2 ≠ side) (t : Int) (s : Book) :
    (ensureBest side t s).getS side2 = s.getS side2 := by
  unfold ensureBest
  split <;> simp [Book.setBestB, getS_setS_other _ h]

lemma getS_refreshIfEmpty_other (P : Params) {side side2 : Side} (h : side2 ≠ side)
    (p : Int) (i : Nat) (s : Book) :
    (refreshIfEmpty P side p i s).getS side2 = s.getS side2 := by
  unfold refreshIfEmpty
  split <;> simp [Book.setBestB, getS_setS_other _ h]

lemma getS_removeFromFifo_other (cfg : Config) {side side2 : Side} (h : side2 ≠ side)
    (i oid : Nat) (s : Book) :
    (removeFromFifo cfg side i oid s).getS side2 = s.getS side2 := by
  unfold removeFromFifo
  repeat' split
  all_goals simp [getS_eraseQ_other _ h]

lemma getS_pushToFifo_other (cfg : Config) {side side2 : Side} (h : side2 ≠ side)
    (i oid : Nat) (v : Int) (s : Book) :
    (pushToFifo cfg side i oid v s).getS side2 = s.getS side2 := by
  unfold pushToFifo
  split <;> simp [getS_pushQ_other _ h]

lemma getS_moveToBackF_other (cfg : Config) {side side2 : Side} (h : side2 ≠ side)
    (i oid : Nat) (s : Book) :
    (moveToBackF cfg side i oid s).getS side2 = s.getS side2 := by
  unfold moveToBackF
  repeat' split
  all_goals simp [getS_pushQ_other _ h, getS_eraseQ_other _ h]

lemma updMoveIn_other (P : Params) (cfg : Config) {side side2 : Side} (h : side2 ≠ side)
    (t : Int) (oid : Nat) (v : Int) (s : Book) :
    (updMoveIn P cfg side t oid v s).getS side2 = s.getS side2 := by
  unfold updMoveIn
  rw [getS_ensureBest_other h, getS_pushToFifo_other _ h, getS_syncBit_other _ h,
    getS_addVol_other2 _ h]

lemma updMoveOut_other (P : Params) (cfg : Config) {side side2 : Side} (h : side2 ≠ side)
    (t0 : Int) (oid : Nat) (v0 : Int) (s : Book) :
    (updMoveOut P cfg side t0 oid v0 s).getS side2 = s.getS side2 := by
  unfold updMoveOut
  rw [getS_refreshIfEmpty_other _ h, getS_syncBit_other _ h, getS_addVol_other2 _ h,
    getS_removeFromFifo_other _ h]

lemma updSame_other (P : Params) (cfg : Config) {side side2 : Side} (h : side2 ≠ side)
    (t t0 : Int) (oid : Nat) (v v0 : Int) (s : Book) :
    (updSame P cfg side t t0 oid v v0 s).getS side2 = s.getS side2 := by
  simp only [updSame]
  repeat' split
  all_goals simp only [getS_refreshIfEmpty_other _ h, getS_ensureBest_other h,
    getS_pushToFifo_other _ h, getS_moveToBackF_other _ h, getS_removeFromFifo_other _ h,
    getS_syncBit_other _ h, getS_addVol_other2 _ h, getS_setOrder]

/-! ### Inversion of the public operations -/

lemma insertImpl_inv {P : Params} {cfg : Config} {side : Side} {t : Int} {oid : Nat}
    {v : Int} {s s2 : Book} (hrun : insertImpl P cfg side t oid v s = some s2) :
    s.orders oid = none ∧
      ((inRange P t = true
          ∧ s2 = insertPlace P cfg side t oid v (s.setOrder oid (some ⟨t, v, false⟩)))
        ∨ (inRange P t = false ∧ cfg.bpDiscard = true
          ∧ s2 = s.setOrder oid (some ⟨t, v, false⟩))) := by
  unfold insertImpl at hrun
  rcases hor : s.orders oid with _ | r
  · rw [hor] at hrun
    cases htr : inRange P t
    · cases hbp : cfg.bpDiscard
      · simp [htr, hbp] at hrun
      · simp only [htr, Bool.false_eq_true, if_false, hbp, if_true] at hrun
        exact ⟨rfl, Or.inr ⟨rfl, rfl, (Option.some_inj.mp hrun).symm⟩⟩
    · simp only [htr, if_true] at hrun
      exact ⟨rfl, Or.inl ⟨rfl, (Option.some_inj.mp hrun).symm⟩⟩
  · rw [hor] at hrun
    exact absurd hrun (by simp)

lemma removeImpl_inv {P : Params} {cfg : Config} {side : Side} {t : Int} {oid : Nat}
    {s s2 : Book} (hrun : removeImpl P cfg side t oid s = some s2) :
    ∃ rec0, s.orders oid = some rec0 ∧
      ((inRange P t = true ∧ s2 = removePlace P cfg side t oid rec0 s)
        ∨ (inRange P t = false ∧ cfg.bpDiscard = true ∧ s2 = s.setOrder oid none)) := by
  unfold removeImpl at hrun
  rcases hor : s.orders oid with _ | rec0
  · rw [hor] at hrun
    exact absurd hrun (by simp)
  · rw [hor] at hrun
    refine ⟨rec0, rfl, ?_⟩
    cases htr : inRange P t
    · cases hbp : cfg.bpDiscard
      · simp [htr, hbp] at hrun
      · simp only [htr, Bool.false_eq_true, if_false, hbp, if_true] at hrun
        exact Or.inr ⟨rfl, rfl, (Option.some_inj.mp hrun).symm⟩
    · simp only [htr, if_true] at hrun
      exact Or.inl ⟨rfl, (Option.some_inj.mp hrun).symm⟩

lemma updateImpl_inv {P : Params} {cfg : Config} {side : Side} {t : Int} {oid : Nat}
    {v : Int} {s s2 : Book} (hrun : updateImpl P cfg side t oid v s = some s2) :
    ∃ rec0, s.orders oid = some rec0 ∧
      ((cfg.bpDiscard = true ∧ inRange P rec0.tick = false ∧ inRange P t = false
          ∧ s2 = s.setOrder oid (some ⟨t, v, rec0.inQueue⟩))
        ∨ (cfg.bpDiscard = true ∧ inRange P rec0.tick = false ∧ inRange P t = true
          ∧ s2 = updMoveIn P cfg side t oid v (s.setOrder oid (some ⟨t, v, rec0.inQueue⟩)))
        ∨ (cfg.bpDiscard = true ∧ inRange P rec0.tick = true ∧ inRange P t = false
          ∧ s2 = updMoveOut P cfg side rec0.tick oid rec0.volume
              (s.setOrder oid (some ⟨t, v, rec0.inQueue⟩)))
        ∨ (inRange P t = true ∧ (cfg.bpDiscard = true → inRange P rec0.tick = true)
          ∧ s2 = updSame P cfg side t rec0.tick oid v rec0.volume
              (s.setOrder oid (some ⟨t, v, rec0.inQueue⟩)))) := by
  unfold updateImpl at hrun
  rcases hor : s.orders oid with _ | rec0
  · rw [hor] at hrun
    exact absurd hrun (by simp)
  · rw [hor] at hrun
    refine ⟨rec0, rfl, ?_⟩
    cases hbp : cfg.bpDiscard
    · rw [hbp] at hrun
      cases htr : inRange P t
      · simp [htr] at hrun
      · simp only [htr, Bool.false_eq_true, if_false, if_true] at hrun
        exact Or.inr (Or.inr (Or.inr ⟨rfl, fun h => absurd h (by simp),
          (Option.some_inj.mp hrun).symm⟩))
    · rw [hbp] at hrun
      cases ht0 : inRange P rec0.tick <;> cases htr : inRange P t <;>
        simp only [ht0, htr, Bool.not_true, Bool.not_false, Bool.true_and, Bool.false_and,
          Bool.and_true, Bool.and_false, Bool.and_self, Bool.false_eq_true, if_true,
          if_false] at hrun
      · exact Or.inl ⟨rfl, rfl, rfl, (Option.some_inj.mp hrun).symm⟩
      · exact Or.inr (Or.inl ⟨rfl, rfl, rfl, (Option.some_inj.mp hrun).symm⟩)
      · exact Or.inr (Or.inr (Or.inl ⟨rfl, rfl, rfl, (Option.some_inj.mp hrun).symm⟩))
      · exact Or.inr (Or.inr (Or.inr ⟨rfl, fun _ => rfl, (Option.some_inj.mp hrun).symm⟩))

/-! ### Invariant P1 (claim C1): preservation machinery -/

lemma Inv1_iff_sides (P : Params) (s : Book) :
    Inv1 P s ↔ ∀ sd, Inv1S P (s.getS sd) := by
  constructor
  · rintro ⟨h1, h2⟩ sd
    cases sd
    · exact h1
    · exact h2
  · intro h
    exact ⟨h .bid, h .ask⟩

lemma inv1_sync_core (N : Nat) (f : Nat → Bool) (g : Nat → Int) (i : Nat) (dv : Int)
    (h : ∀ j, j < N → j ≠ i → (f j = true ↔ g j ≠ 0)) :
    ∀ j, j < N →
      (updFn f i (decide (g i + dv ≠ 0)) j = true ↔ updFn g i (g i + dv) j ≠ 0) := by
  intro j hj
  by_cases hji : j = i
  · subst hji
    rw [updFn_same, updFn_same]
    simp
  · rw [updFn_other _ hji, updFn_other _ hji]
    exact h j hj hji

lemma Inv1S_syncBit_addVol (P : Params) (s : Book) (side : Side) (i : Nat) (dv : Int)
    (h : ∀ j, j < P.N → j ≠ i → ((s.getS side).bit j = true ↔ (s.getS side).vol j ≠ 0)) :
    Inv1S P ((syncBit (s.addVol side i dv) side i).getS side) := by
  intro j hj
  simp only [bit_syncBit_same, vol_syncBit, getS_addVol_same, updFn_same]
  exact inv1_sync_core P.N (s.getS side).bit (s.getS side).vol i dv h j hj

lemma Inv1S_updMoveIn (P : Params) (cfg : Config) (side : Side) (t : Int) (oid : Nat)
    (v : Int) (s : Book) (h : Inv1S P (s.getS side)) :
    Inv1S P ((updMoveIn P cfg side t oid v s).getS side) := by
  intro j hj
  simp only [updMoveIn, bit_ensureBest, vol_ensureBest, bit_pushToFifo, vol_pushToFifo]
  exact Inv1S_syncBit_addVol P s side (toIdx P t) v (fun k hk _ => h k hk) j hj

lemma Inv1S_updMoveOut (P : Params) (cfg : Config) (side : Side) (t0 : Int) (oid : Nat)
    (v0 : Int) (s : Book) (h : Inv1S P (s.getS side)) :
    Inv1S P ((updMoveOut P cfg side t0 oid v0 s).getS side) := by
  intro j hj
  simp only [updMoveOut, bit_refreshIfEmpty, vol_refreshIfEmpty]
  exact Inv1S_syncBit_addVol P (removeFromFifo cfg side (toIdx P t0) oid s) side
    (toIdx P t0) (-v0)
    (fun k hk _ => by rw [bit_removeFromFifo, vol_removeFromFifo]; exact h k hk) j hj

lemma Inv1S_updSame (P : Params) (cfg : Config) (side : Side) (t t0 : Int) (oid : Nat)
    (v v0 : Int) (s : Book) (h : Inv1S P (s.getS side)) :
    Inv1S P ((updSame P cfg side t t0 oid v v0 s).getS side) := by
  have h2 : Inv1S P ((syncBit (s.addVol side (toIdx P t0)
      (if t ≠ t0 then -v0 else v - v0)) side (toIdx P t0)).getS side) :=
    Inv1S_syncBit_addVol P s side _ _ (fun k hk _ => h k hk)
  simp only [updSame]
  split
  · intro j hj
    simp only [bit_refreshIfEmpty, vol_refreshIfEmpty, getS_setOrder, bit_removeFromFifo,
      vol_removeFromFifo]
    exact h2 j hj
  · intro j hj
    simp only [bit_refreshIfEmpty, vol_refreshIfEmpty]
    by_cases hft : t ≠ t0
    · simp only [if_pos hft] at h2 ⊢
      simp only [bit_ensureBest, vol_ensureBest, bit_pushToFifo, vol_pushToFifo]
      refine Inv1S_syncBit_addVol P _ side (toIdx P t) v (fun k hk _ => ?_) j hj
      by_cases hf : cfg.fifo = true
      · simp only [if_pos hf, bit_removeFromFifo, vol_removeFromFifo]
        exact h2 k hk
      · simp only [if_neg hf]
        exact h2 k hk
    · simp only [if_neg hft] at h2 ⊢
      by_cases hf : cfg.fifo = true
      · simp only [if_pos hf]
        by_cases hd : v - v0 > 0
        · simp only [if_pos hd, bit_moveToBackF, vol_moveToBackF]
          exact h2 j hj
        · simp only [if_neg hd]
          exact h2 j hj
      · simp only [if_neg hf]
        exact h2 j hj

lemma Inv1S_removePlace (P : Params) (cfg : Config) (side : Side) (t : Int) (oid : Nat)
    (rec0 : OrderRec) (s : Book) (h : Inv1S P (s.getS side))
    (hz : (s.getS side).vol (toIdx P t) = 0 → rec0.volume = 0) :
    Inv1S P ((removePlace P cfg side t oid rec0 s).getS side) := by
  intro j hj
  rw [removePlace_bit, removePlace_vol]
  by_cases hji : j = toIdx P t
  · rw [hji] at hj ⊢
    by_cases h0 : (s.getS side).vol (toIdx P t) + -rec0.volume = 0
    · rw [if_pos h0, updFn_same, updFn_same]
      simp [h0]
    · rw [if_neg h0, updFn_same]
      constructor
      · intro _
        exact h0
      · intro _
        apply (h (toIdx P t) hj).mpr
        intro hv0
        apply h0
        rw [hv0, hz hv0]
        ring
  · rw [updFn_other _ hji]
    split
    · rw [updFn_other _ hji]
      exact h j hj
    · exact h j hj

lemma Inv1S_clearSide (P : Params) (cfg : Config) (ss : SideState)
    (h : Inv1S P ss) : Inv1S P (clearSide P cfg ss) := by
  intro j hj
  simp only [clearSide]
  by_cases hv : ss.vol j ≠ 0
  · rw [if_pos ⟨hj, hv⟩, if_pos ⟨hj, hv⟩]
    simp
  · rw [if_neg (fun hc => hv hc.2), if_neg (fun hc => hv hc.2)]
    exact h j hj

/-- C1: the bitmap/volume invariant P1 after every public operation, with the
corrections the code forces. Update and `clear` preserve P1 unconditionally
(`sync_bitset` writes the exact bit). An in-range insert preserves it only
when the level volume stays non-zero (the code sets the bit unconditionally,
so inserting a volume-0 order at an empty level breaks P1 — see the
counterexample). An in-range remove preserves it only when a zero level
implies the removed order stored zero volume (the level volume can otherwise
pass through zero with the bit left set). Out-of-range discarded operations
touch no level data. -/
theorem claim_C1 (P : Params) (cfg : Config) (side : Side) (s : Book)
    (hInv : Inv1 P s) :
    (∀ t oid v s2, insertImpl P cfg side t oid v s = some s2 →
        (inRange P t = true → (s.getS side).vol (toIdx P t) + v ≠ 0) → Inv1 P s2)
      ∧ (∀ t oid v s2, updateImpl P cfg side t oid v s = some s2 → Inv1 P s2)
      ∧ (∀ t oid s2, removeImpl P cfg side t oid s = some s2 →
          (∀ rec0, s.orders oid = some rec0 →
            (s.getS side).vol (toIdx P t) = 0 → rec0.volume = 0) → Inv1 P s2)
      ∧ Inv1 P (clearImpl P cfg s) := by
  have hi : ∀ sd, Inv1S P (s.getS sd) := (Inv1_iff_sides P s).mp hInv
  refine ⟨?_, ?_, ?_, ?_⟩
  · intro t oid v s2 hrun hv
    obtain ⟨hid, hcase⟩ := insertImpl_inv hrun
    rw [Inv1_iff_sides]
    intro sd
    rcases hcase with ⟨ht, rfl⟩ | ⟨ht, hbp, rfl⟩
    · by_cases hsd : sd = side
      · rw [hsd]
        intro j hj
        rw [insertPlace_bit, insertPlace_vol]
        simp only [getS_setOrder]
        by_cases hji : j = toIdx P t
        · rw [hji] at hj ⊢
          rw [updFn_same, updFn_same]
          exact iff_of_true rfl (hv ht)
        · rw [updFn_other _ hji, updFn_other _ hji]
          exact hi side j hj
      · rw [insertPlace_other P cfg hsd, getS_setOrder]
        exact hi sd
    · rw [getS_setOrder]
      exact hi sd
  · intro t oid v s2 hrun
    obtain ⟨rec0, hor, hcase⟩ := updateImpl_inv hrun
    rw [Inv1_iff_sides]
    intro sd
    rcases hcase with ⟨_, _, _, rfl⟩ | ⟨_, _, _, rfl⟩ | ⟨_, _, _, rfl⟩ | ⟨_, _, rfl⟩
    · rw [getS_setOrder]
      exact hi sd
    · by_cases hsd : sd = side
      · rw [hsd]
        exact Inv1S_updMoveIn P cfg side t oid v _
          (by rw [getS_setOrder]; exact hi side)
      · rw [updMoveIn_other P cfg hsd, getS_setOrder]
        exact hi sd
    · by_cases hsd : sd = side
      · rw [hsd]
        exact Inv1S_updMoveOut P cfg side rec0.tick oid rec0.volume _
          (by rw [getS_setOrder]; exact hi side)
      · rw [updMoveOut_other P cfg hsd, getS_setOrder]
        exact hi sd
    · by_cases hsd : sd = side
      · rw [hsd]
        exact Inv1S_updSame P cfg side t rec0.tick oid v rec0.volume _
          (by rw [getS_setOrder]; exact hi side)
      · rw [updSame_other P cfg hsd, getS_setOrder]
        exact hi sd
  · intro t oid s2 hrun hz
    obtain ⟨rec0, hor, hcase⟩ := removeImpl_inv hrun
    rw [Inv1_iff_sides]
    intro sd
    rcases hcase with ⟨ht, rfl⟩ | ⟨ht, hbp, rfl⟩
    · by_cases hsd : sd = side
      · rw [hsd]
        exact Inv1S_removePlace P cfg side t oid rec0 s (hi side) (hz rec0 hor)
      · rw [removePlace_other P cfg hsd]
        exact hi sd
    · rw [getS_setOrder]
      exact hi sd
  · exact ⟨Inv1S_clearSide P cfg s.bid hInv.1, Inv1S_clearSide P cfg s.ask hInv.2⟩

/-- C1 witness: the amended insert conjunct at a concrete instance — inserting
bid id 1, volume 5 at tick 100 into a fresh default-policy book preserves P1. -/
theorem claim_C1_witness :
    Inv1 P48 (insertPlace P48 cfgDefault Side.bid 100 1 5
      (freshBook.setOrder 1 (some ⟨100, 5, false⟩))) :=
  (claim_C1 P48 cfgDefault Side.bid freshBook
      (by refine ⟨?_, ?_⟩ <;> (unfold Inv1S; decide))).1 100 1 5 _
    (insertImpl_char P48 cfgDefault Side.bid 100 1 5 freshBook rfl (by decide))
    (by decide)

/-- C1 counterexample to the unconditional claim: under the default
zero-as-valid policy, inserting a bid with volume 0 at tick 100 into a fresh
book sets bitmap bit 14 while the level volume stays 0, so
`bitmap[14] == (level[14].volume != 0)` fails. -/
theorem claim_C1_counterexample :
    bitProj (insertImpl P48 cfgDefault Side.bid 100 1 0 freshBook) Side.bid 14 = some true
      ∧ volProj (insertImpl P48 cfgDefault Side.bid 100 1 0 freshBook) Side.bid 14
          = some 0 := by
  decide

/-! ### Claim C5: clear() versus the freshly constructed book -/

lemma clearSide_components (P : Params) (cfg : Config) (ss : SideState)
    (hInv : Inv1S P ss)
    (hqz : ∀ i, i < P.N → ss.vol i = 0 → ss.q i = [])
    (hnf : cfg.fifo = false → ∀ i, i < P.N → ss.q i = [])
    (i : Nat) (hi : i < P.N) :
    (clearSide P cfg ss).bit i = false ∧ (clearSide P cfg ss).vol i = 0
      ∧ (clearSide P cfg ss).q i = [] := by
  simp only [clearSide]
  by_cases hv : ss.vol i ≠ 0
  · refine ⟨?_, ?_, ?_⟩
    · rw [if_pos ⟨hi, hv⟩]
    · rw [if_pos ⟨hi, hv⟩]
    · cases hf : cfg.fifo
      · rw [if_neg (fun hc => Bool.false_ne_true hc.2.2)]
        exact hnf hf i hi
      · rw [if_pos ⟨hi, hv, rfl⟩]
  · have hv0 : ss.vol i = 0 := of_not_not hv
    refine ⟨?_, ?_, ?_⟩
    · rw [if_neg (fun hc => hv hc.2)]
      exact Bool.eq_false_iff.mpr (fun hb => hv ((hInv i hi).mp hb))
    · rw [if_neg (fun hc => hv hc.2)]
      exact hv0
    · rw [if_neg (fun hc => hv hc.2.1)]
      exact hqz i hi hv0

/-- C5 with the corrections the code forces: `clear()` yields the
freshly-constructed state provided the state satisfies P1 (a set bit means a
non-zero level), every zero-volume level has an empty queue, and in non-FIFO
mode all queues are empty. These all hold on states the public interface can
reach without a volume-0 insert; after `insert_bid(100, {id 1, v 0})` they
fail and so does the law — see the counterexample. -/
theorem claim_C5 (P : Params) (cfg : Config) (s : Book) (hInv : Inv1 P s)
    (hqz : ∀ i, i < P.N →
      (s.bid.vol i = 0 → s.bid.q i = []) ∧ (s.ask.vol i = 0 → s.ask.q i = []))
    (hnf : cfg.fifo = false → ∀ i, i < P.N → s.bid.q i = [] ∧ s.ask.q i = []) :
    ObsEqN P (clearImpl P cfg s) freshBook := by
  refine ⟨rfl, rfl, ?_, fun _ => rfl⟩
  intro i hi
  obtain ⟨hb1, hb2, hb3⟩ := clearSide_components P cfg s.bid hInv.1
    (fun j hj => (hqz j hj).1) (fun hf j hj => (hnf hf j hj).1) i hi
  obtain ⟨ha1, ha2, ha3⟩ := clearSide_components P cfg s.ask hInv.2
    (fun j hj => (hqz j hj).2) (fun hf j hj => (hnf hf j hj).2) i hi
  exact ⟨hb1, hb2, hb3, ha1, ha2, ha3⟩

def c5Book : Book :=
  insertPlace P48 cfgFifo Side.bid 100 1 5 (freshBook.setOrder 1 (some ⟨100, 5, false⟩))

/-- C5 witness: clearing the book holding one bid (id 1, volume 5, tick 100)
in FIFO mode yields the freshly-constructed state. -/
theorem claim_C5_witness : ObsEqN P48 (clearImpl P48 cfgFifo c5Book) freshBook :=
  claim_C5 P48 cfgFifo c5Book
    (by refine ⟨?_, ?_⟩ <;> (unfold Inv1S; decide)) (by decide) (by decide)

/-- C5 counterexample to the claim over every reachable state: after the
volume-0 insert `insert_bid(100, {id 1, v 0})` (reachable under the default
zero-as-valid policy with FIFO), `clear()` skips the zero-volume level, so
bit 14 stays set and the queue keeps id 1, unlike the fresh book. -/
theorem claim_C5_counterexample :
    bitProj ((insertImpl P48 cfgFifo Side.bid 100 1 0 freshBook).map
        (clearImpl P48 cfgFifo)) Side.bid 14 = some true
      ∧ qProj ((insertImpl P48 cfgFifo Side.bid 100 1 0 freshBook).map
          (clearImpl P48 cfgFifo)) Side.bid 14 = some [1]
      ∧ freshBook.bid.bit 14 = false ∧ freshBook.bid.q 14 = [] := by
  decide

/-! ### Claim C6: best-price cache invariant machinery -/

lemma toIdx_lt_toIdx {P : Params} (hwf : P.wf) {t t2 : Int} (ht : inRange P t = true)
    (ht2 : inRange P t2 = true) (hlt : t < t2) : toIdx P t < toIdx P t2 := by
  obtain ⟨h1, h2, h3, h4⟩ := hwf
  simp only [inRange, Bool.and_eq_true, decide_eq_true_eq] at ht ht2
  simp only [toIdx]
  omega

lemma findHighestIdx_clear_set_above (bm : Nat → Bool) {n m ni : Nat}
    (h : findHighestIdx bm n = some m) (hni : ni < n) (hgt : m < ni) :
    findHighestIdx (updFn (updFn bm m false) ni true) n = some ni := by
  obtain ⟨hm, hbm, habove⟩ := (findHighestIdx_eq_some_iff bm n m).mp h
  rw [findHighestIdx_eq_some_iff]
  refine ⟨hni, by simp [updFn], fun j hj hj' => ?_⟩
  rw [updFn_other _ (by omega : j ≠ ni), updFn_other _ (by omega : j ≠ m)]
  exact habove j (by omega) hj'

lemma findLowestIdx_clear_set_below (bm : Nat → Bool) {n m ni : Nat}
    (h : findLowestIdx bm n = some m) (hni : ni < n) (hlt : ni < m) :
    findLowestIdx (updFn (updFn bm m false) ni true) n = some ni := by
  obtain ⟨hm, hbm, hbelow⟩ := (findLowestIdx_eq_some_iff bm n m).mp h
  rw [findLowestIdx_eq_some_iff]
  refine ⟨hni, by simp [updFn], fun j hj => ?_⟩
  rw [updFn_other _ (by omega : j ≠ ni), updFn_other _ (by omega : j ≠ m)]
  exact hbelow j (by omega)

lemma scan_set_true {P : Params} (side : Side) (hwf : P.wf) {t : Int}
    (ht : inRange P t = true) {bm : Nat → Bool} {best : Option Int}
    (hInv : best = (scanIdx side bm P.N).map (fun i => idxTick P i)) :
    (if betterB side t best then some t else best)
      = (scanIdx side (updFn bm (toIdx P t) true) P.N).map (fun i => idxTick P i) := by
  have hltN := toIdx_lt_N hwf ht
  have hidx := idxTick_toIdx hwf ht
  cases side
  · simp only [scanIdx] at hInv ⊢
    rcases hsc : findHighestIdx bm P.N with _ | m
    · rw [hsc] at hInv
      simp only [Option.map_none'] at hInv
      subst hInv
      rw [findHighestIdx_updFn_true_none bm hsc hltN]
      simp only [betterB, if_true, Option.map_some']
      rw [hidx]
    · rw [hsc] at hInv
      simp only [Option.map_some'] at hInv
      subst hInv
      rw [findHighestIdx_updFn_true_some bm hsc hltN]
      simp only [betterB, Option.map_some']
      by_cases hb : idxTick P m < t
      · rw [if_pos (by simpa using hb)]
        have hmi : m < toIdx P t := by
          rw [← hidx] at hb
          simp only [idxTick] at hb
          omega
        rw [Nat.max_eq_right (le_of_lt hmi), hidx]
      · rw [if_neg (by simpa using hb)]
        have hge : toIdx P t ≤ m := by
          rw [← hidx] at hb
          simp only [idxTick] at hb
          omega
        rw [Nat.max_eq_left hge]
  · simp only [scanIdx] at hInv ⊢
    rcases hsc : findLowestIdx bm P.N with _ | m
    · rw [hsc] at hInv
      simp only [Option.map_none'] at hInv
      subst hInv
      rw [findLowestIdx_updFn_true_none bm hsc hltN]
      simp only [betterB, if_true, Option.map_some']
      rw [hidx]
    · rw [hsc] at hInv
      simp only [Option.map_some'] at hInv
      subst hInv
      rw [findLowestIdx_updFn_true_some bm hsc hltN]
      simp only [betterB, Option.map_some']
      by_cases hb : t < idxTick P m
      · rw [if_pos (by simpa using hb)]
        have hmi : toIdx P t < m := by
          rw [← hidx] at hb
          simp only [idxTick] at hb
          omega
        rw [Nat.min_eq_right (le_of_lt hmi), hidx]
      · rw [if_neg (by simpa using hb)]
        have hge : m ≤ toIdx P t := by
          rw [← hidx] at hb
          simp only [idxTick] at hb
          omega
        rw [Nat.min_eq_left hge]

lemma scan_clear_ne {P : Params} (side : Side) (hwf : P.wf) {t0 : Int}
    (ht0 : inRange P t0 = true) {bm : Nat → Bool} {best : Option Int}
    (hInv : best = (scanIdx side bm P.N).map (fun i => idxTick P i))
    (hne : best ≠ some t0) :
    best = (scanIdx side (updFn bm (toIdx P t0) false) P.N).map (fun i => idxTick P i) := by
  cases side
  · simp only [scanIdx] at hInv ⊢
    rcases hsc : findHighestIdx bm P.N with _ | m
    · rw [hsc] at hInv
      rw [findHighestIdx_updFn_false_of_none bm (toIdx P t0) hsc]
      exact hInv
    · rw [hsc] at hInv
      have hmne : toIdx P t0 ≠ m := by
        rintro rfl
        apply hne
        rw [hInv]
        simp only [Option.map_some', Option.some_inj]
        exact idxTick_toIdx hwf ht0
      rw [findHighestIdx_updFn_false_of_ne bm hsc hmne]
      exact hInv
  · simp only [scanIdx] at hInv ⊢
    rcases hsc : findLowestIdx bm P.N with _ | m
    · rw [hsc] at hInv
      rw [findLowestIdx_updFn_false_of_none bm (toIdx P t0) hsc]
      exact hInv
    · rw [hsc] at hInv
      have hmne : toIdx P t0 ≠ m := by
        rintro rfl
        apply hne
        rw [hInv]
        simp only [Option.map_some', Option.some_inj]
        exact idxTick_toIdx hwf ht0
      rw [findLowestIdx_updFn_false_of_ne bm hsc hmne]
      exact hInv

lemma scan_clear_set {P : Params} (side : Side) (hwf : P.wf) {t t0 : Int}
    (ht : inRange P t = true) (ht0 : inRange P t0 = true) {bm : Nat → Bool}
    (hsc : scanIdx side bm P.N = some (toIdx P t0))
    (hbet : betterB side t (some t0) = true) :
    some t = (scanIdx side (updFn (updFn bm (toIdx P t0) false) (toIdx P t) true) P.N).map
      (fun i => idxTick P i) := by
  have hltN := toIdx_lt_N hwf ht
  cases side
  · simp only [scanIdx] at hsc ⊢
    have hgt : toIdx P t0 < toIdx P t := by
      simp only [betterB, decide_eq_true_eq] at hbet
      exact toIdx_lt_toIdx hwf ht0 ht hbet
    rw [findHighestIdx_clear_set_above bm hsc hltN hgt]
    simp only [Option.map_some', Option.some_inj]
    exact (idxTick_toIdx hwf ht).symm
  · simp only [scanIdx] at hsc ⊢
    have hgt : toIdx P t < toIdx P t0 := by
      simp only [betterB, decide_eq_true_eq] at hbet
      exact toIdx_lt_toIdx hwf ht ht0 hbet
    rw [findLowestIdx_clear_set_below bm hsc hltN hgt]
    simp only [Option.map_some', Option.some_inj]
    exact (idxTick_toIdx hwf ht).symm

/-! ### Component characterisations of the update cases -/

lemma updMoveIn_bit (P : Params) (cfg : Config) (side : Side) (t : Int) (oid : Nat)
    (v : Int) (s : Book) :
    ((updMoveIn P cfg side t oid v s).getS side).bit
      = updFn (s.getS side).bit (toIdx P t)
          (decide ((s.getS side).vol (toIdx P t) + v ≠ 0)) := by
  simp only [updMoveIn, bit_ensureBest, bit_pushToFifo, bit_syncBit_same, getS_addVol_same,
    updFn_same]

lemma updMoveIn_best (P : Params) (cfg : Config) (side : Side) (t : Int) (oid : Nat)
    (v : Int) (s : Book) :
    ((updMoveIn P cfg side t oid v s).getS side).best
      = if betterB side t ((s.getS side).best) then some t else (s.getS side).best := by
  simp only [updMoveIn]
  rw [best_ensureBest_same]
  simp only [best_pushToFifo, best_syncBit, getS_addVol_same]

lemma updMoveOut_bit (P : Params) (cfg : Config) (side : Side) (t0 : Int) (oid : Nat)
    (v0 : Int) (s : Book) :
    ((updMoveOut P cfg side t0 oid v0 s).getS side).bit
      = updFn (s.getS side).bit (toIdx P t0)
          (decide ((s.getS side).vol (toIdx P t0) + -v0 ≠ 0)) := by
  simp only [updMoveOut, bit_refreshIfEmpty, bit_syncBit_same, getS_addVol_same,
    updFn_same, bit_removeFromFifo, vol_removeFromFifo]

lemma updMoveOut_vol (P : Params) (cfg : Config) (side : Side) (t0 : Int) (oid : Nat)
    (v0 : Int) (s : Book) :
    ((updMoveOut P cfg side t0 oid v0 s).getS side).vol
      = updFn (s.getS side).vol (toIdx P t0) ((s.getS side).vol (toIdx P t0) + -v0) := by
  simp only [updMoveOut, vol_refreshIfEmpty, vol_syncBit, getS_addVol_same,
    vol_removeFromFifo]

lemma updMoveOut_best (P : Params) (cfg : Config) (side : Side) (t0 : Int) (oid : Nat)
    (v0 : Int) (s : Book) :
    ((updMoveOut P cfg side t0 oid v0 s).getS side).best
      = if (s.getS side).vol (toIdx P t0) + -v0 = 0 ∧ (s.getS side).best = some t0 then
          scanBest P side (updFn (s.getS side).bit (toIdx P t0)
            (decide ((s.getS side).vol (toIdx P t0) + -v0 ≠ 0)))
        else (s.getS side).best := by
  simp only [updMoveOut]
  rw [best_refreshIfEmpty_same]
  simp only [vol_syncBit, getS_addVol_same, updFn_same, best_syncBit, best_removeFromFifo,
    vol_removeFromFifo, bit_syncBit_same, bit_removeFromFifo]

/-! ### Inv2 preservation through the operations -/

lemma inv2_level_step {P : Params} (side : Side) (hwf : P.wf) {t0 : Int}
    (ht0 : inRange P t0 = true) {bm : Nat → Bool} {best : Option Int} {volO X : Int}
    (hInv : best = (scanIdx side bm P.N).map (fun i => idxTick P i))
    (hbit : bm (toIdx P t0) = true ↔ volO ≠ 0)
    (hzero : volO = 0 → X = 0) :
    (if X = 0 ∧ best = some t0 then
        scanBest P side (updFn bm (toIdx P t0) (decide (X ≠ 0)))
      else best)
      = (scanIdx side (updFn bm (toIdx P t0) (decide (X ≠ 0))) P.N).map
          (fun i => idxTick P i) := by
  by_cases h0 : X = 0
  · have hd : decide (X ≠ 0) = false := by simp [h0]
    rw [hd]
    by_cases hb : best = some t0
    · rw [if_pos ⟨h0, hb⟩]
      rfl
    · rw [if_neg (fun hc => hb hc.2)]
      exact scan_clear_ne side hwf ht0 hInv hb
  · have hd : decide (X ≠ 0) = true := decide_eq_true h0
    rw [hd, if_neg (fun hc => h0 hc.1)]
    have hbm : bm (toIdx P t0) = true := hbit.mpr (fun hv0 => h0 (hzero hv0))
    rw [updFn_eq_self _ _ _ hbm]
    exact hInv

lemma Inv2S_insertPlace (P : Params) (cfg : Config) (side : Side) (t : Int) (oid : Nat)
    (v : Int) (s1 : Book) (hwf : P.wf) (ht : inRange P t = true)
    (hInv : Inv2S P side (s1.getS side)) :
    Inv2S P side ((insertPlace P cfg side t oid v s1).getS side) := by
  unfold Inv2S
  rw [insertPlace_best, insertPlace_bit]
  exact scan_set_true side hwf ht hInv

lemma Inv2S_removePlace (P : Params) (cfg : Config) (side : Side) (t : Int) (oid : Nat)
    (rec0 : OrderRec) (s : Book) (hwf : P.wf) (ht : inRange P t = true)
    (hInv : Inv2S P side (s.getS side)) :
    Inv2S P side ((removePlace P cfg side t oid rec0 s).getS side) := by
  unfold Inv2S
  rw [removePlace_best, removePlace_bit]
  by_cases h0 : (s.getS side).vol (toIdx P t) + -rec0.volume = 0
  · rw [if_pos h0, if_pos h0]
    by_cases hb : (s.getS side).best = some t
    · rw [if_pos hb]
      rfl
    · rw [if_neg hb]
      exact scan_clear_ne side hwf ht hInv hb
  · rw [if_neg h0, if_neg h0]
    exact hInv

lemma Inv2S_updMoveIn (P : Params) (cfg : Config) (side : Side) (t : Int) (oid : Nat)
    (v : Int) (s : Book) (hwf : P.wf) (ht : inRange P t = true)
    (hInv : Inv2S P side (s.getS side))
    (hv : (s.getS side).vol (toIdx P t) + v ≠ 0) :
    Inv2S P side ((updMoveIn P cfg side t oid v s).getS side) := by
  unfold Inv2S
  rw [updMoveIn_best, updMoveIn_bit, decide_eq_true hv]
  exact scan_set_true side hwf ht hInv

lemma Inv2S_updMoveOut (P : Params) (cfg : Config) (side : Side) (t0 : Int) (oid : Nat)
    (v0 : Int) (s : Book) (hwf : P.wf) (ht0 : inRange P t0 = true)
    (hInv1 : Inv1S P (s.getS side)) (hInv : Inv2S P side (s.getS side))
    (hold : (s.getS side).vol (toIdx P t0) = 0 → v0 = 0) :
    Inv2S P side ((updMoveOut P cfg side t0 oid v0 s).getS side) := by
  unfold Inv2S
  rw [updMoveOut_best, updMoveOut_bit]
  exact inv2_level_step side hwf ht0 hInv (hInv1 _ (toIdx_lt_N hwf ht0))
    (fun h => by rw [h, hold h]; ring)

lemma Inv2S_clearSide (P : Params) (cfg : Config) (side : Side) (ss : SideState)
    (hInv1 : Inv1S P ss) : Inv2S P side (clearSide P cfg ss) := by
  unfold Inv2S
  have hz : ∀ i, i < P.N → (clearSide P cfg ss).bit i = false := by
    intro i hi
    simp only [clearSide]
    by_cases hv : ss.vol i ≠ 0
    · rw [if_pos ⟨hi, hv⟩]
    · rw [if_neg (fun hc => hv hc.2)]
      exact Bool.eq_false_iff.mpr (fun hb => hv ((hInv1 i hi).mp hb))
  have hnone : scanIdx side (clearSide P cfg ss).bit P.N = none := by
    cases side
    · exact (findHighestIdx_eq_none_iff _ _).mpr hz
    · exact (findLowestIdx_eq_none_iff _ _).mpr hz
  rw [hnone]
  rfl

/-! ### Characterisation of the three `updSame` shapes -/

lemma updSame_del_char (P : Params) (cfg : Config) (side : Side) (t t0 : Int) (oid : Nat)
    (v v0 : Int) (s : Book) (hdel : cfg.zpDelete = true ∧ v = 0) :
    ((updSame P cfg side t t0 oid v v0 s).getS side).bit
        = updFn (s.getS side).bit (toIdx P t0)
            (decide ((s.getS side).vol (toIdx P t0) + -v0 ≠ 0))
      ∧ ((updSame P cfg side t t0 oid v v0 s).getS side).best
        = (if (s.getS side).vol (toIdx P t0) + -v0 = 0
              ∧ (s.getS side).best = some t0 then
            scanBest P side (updFn (s.getS side).bit (toIdx P t0)
              (decide ((s.getS side).vol (toIdx P t0) + -v0 ≠ 0)))
          else (s.getS side).best) := by
  have hadj : (if t ≠ t0 then -v0 else v - v0) = -v0 := by
    rcases hdel with ⟨_, rfl⟩
    split <;> ring
  simp only [updSame, hadj]
  rw [if_pos hdel]
  constructor
  · simp only [bit_refreshIfEmpty, getS_setOrder, bit_removeFromFifo, bit_syncBit_same,
      getS_addVol_same, updFn_same]
  · rw [best_refreshIfEmpty_same]
    simp only [getS_setOrder, vol_removeFromFifo, vol_syncBit, getS_addVol_same,
      updFn_same, best_removeFromFifo, best_syncBit, bit_removeFromFifo,
      bit_syncBit_same]

lemma updSame_same_char (P : Params) (cfg : Config) (side : Side) (t t0 : Int) (oid : Nat)
    (v v0 : Int) (s : Book) (hnd : ¬(cfg.zpDelete = true ∧ v = 0)) (htt : ¬(t ≠ t0)) :
    ((updSame P cfg side t t0 oid v v0 s).getS side).bit
        = updFn (s.getS side).bit (toIdx P t0)
            (decide ((s.getS side).vol (toIdx P t0) + (v - v0) ≠ 0))
      ∧ ((updSame P cfg side t t0 oid v v0 s).getS side).best
        = (if (s.getS side).vol (toIdx P t0) + (v - v0) = 0
              ∧ (s.getS side).best = some t0 then
            scanBest P side (updFn (s.getS side).bit (toIdx P t0)
              (decide ((s.getS side).vol (toIdx P t0) + (v - v0) ≠ 0)))
          else (s.getS side).best) := by
  simp only [updSame]
  rw [if_neg hnd]
  simp only [if_neg htt]
  by_cases hf : cfg.fifo = true
  · rw [if_pos hf]
    by_cases hd : v - v0 > 0
    · rw [if_pos hd]
      constructor
      · simp only [bit_refreshIfEmpty, bit_moveToBackF, bit_syncBit_same,
          getS_addVol_same, updFn_same]
      · rw [best_refreshIfEmpty_same]
        simp only [vol_moveToBackF, vol_syncBit, getS_addVol_same, updFn_same,
          best_moveToBackF, best_syncBit, bit_moveToBackF, bit_syncBit_same]
    · rw [if_neg hd]
      constructor
      · simp only [bit_refreshIfEmpty, bit_syncBit_same, getS_addVol_same, updFn_same]
      · rw [best_refreshIfEmpty_same]
        simp only [vol_syncBit, getS_addVol_same, updFn_same, best_syncBit,
          bit_syncBit_same]
  · rw [if_neg hf]
    constructor
    · simp only [bit_refreshIfEmpty, bit_syncBit_same, getS_addVol_same, updFn_same]
    · rw [best_refreshIfEmpty_same]
      simp only [vol_syncBit, getS_addVol_same, updFn_same, best_syncBit,
        bit_syncBit_same]

lemma updSame_move_char (P : Params) (cfg : Config) (side : Side) (t t0 : Int) (oid : Nat)
    (v v0 : Int) (s : Book) (hnd : ¬(cfg.zpDelete = true ∧ v = 0)) (htt : t ≠ t0)
    (hio : toIdx P t ≠ toIdx P t0) :
    ((updSame P cfg side t t0 oid v v0 s).getS side).bit
        = updFn (updFn (s.getS side).bit (toIdx P t0)
              (decide ((s.getS side).vol (toIdx P t0) + -v0 ≠ 0))) (toIdx P t)
            (decide ((s.getS side).vol (toIdx P t) + v ≠ 0))
      ∧ ((updSame P cfg side t t0 oid v v0 s).getS side).best
        = (if (s.getS side).vol (toIdx P t0) + -v0 = 0
              ∧ (if betterB side t ((s.getS side).best) then some t
                 else (s.getS side).best) = some t0 then
            scanBest P side (updFn (updFn (s.getS side).bit (toIdx P t0)
              (decide ((s.getS side).vol (toIdx P t0) + -v0 ≠ 0))) (toIdx P t)
              (decide ((s.getS side).vol (toIdx P t) + v ≠ 0)))
          else (if betterB side t ((s.getS side).best) then some t
                else (s.getS side).best)) := by
  simp only [updSame]
  rw [if_neg hnd]
  simp only [if_pos htt]
  by_cases hf : cfg.fifo = true
  · rw [if_pos hf]
    constructor
    · simp only [bit_refreshIfEmpty, bit_ensureBest, bit_pushToFifo, bit_syncBit_same,
        getS_addVol_same, updFn_same, bit_removeFromFifo, vol_removeFromFifo,
        vol_syncBit, updFn_other _ hio]
    · rw [best_refreshIfEmpty_same]
      simp only [vol_ensureBest, vol_pushToFifo, vol_syncBit, getS_addVol_same,
        updFn_same, updFn_other _ (Ne.symm hio), updFn_other _ hio, vol_removeFromFifo,
        best_ensureBest_same, best_pushToFifo, best_syncBit, best_removeFromFifo,
        bit_ensureBest, bit_pushToFifo, bit_syncBit_same, bit_removeFromFifo]
  · rw [if_neg hf]
    constructor
    · simp only [bit_refreshIfEmpty, bit_ensureBest, bit_pushToFifo, bit_syncBit_same,
        getS_addVol_same, updFn_same, vol_syncBit, updFn_other _ hio]
    · rw [best_refreshIfEmpty_same]
      simp only [vol_ensureBest, vol_pushToFifo, vol_syncBit, getS_addVol_same,
        updFn_same, updFn_other _ (Ne.symm hio), updFn_other _ hio,
        best_ensureBest_same, best_pushToFifo, best_syncBit,
        bit_ensureBest, bit_pushToFifo, bit_syncBit_same]

lemma Inv2S_updSame (P : Params) (cfg : Config) (side : Side) (t t0 : Int) (oid : Nat)
    (v v0 : Int) (s : Book) (hwf : P.wf)
    (ht : inRange P t = true) (ht0 : inRange P t0 = true)
    (hInv1 : Inv1S P (s.getS side)) (hInv : Inv2S P side (s.getS side))
    (hold : (s.getS side).vol (toIdx P t0) = 0 → v0 = 0)
    (hnew : t ≠ t0 → (s.getS side).vol (toIdx P t) + v ≠ 0)
    (hsame : t = t0 → (s.getS side).vol (toIdx P t) = 0 → v = 0) :
    Inv2S P side ((updSame P cfg side t t0 oid v v0 s).getS side) := by
  have hbitO : (s.getS side).bit (toIdx P t0) = true
      ↔ (s.getS side).vol (toIdx P t0) ≠ 0 := hInv1 _ (toIdx_lt_N hwf ht0)
  by_cases hdel : cfg.zpDelete = true ∧ v = 0
  · obtain ⟨hbit, hbest⟩ := updSame_del_char P cfg side t t0 oid v v0 s hdel
    unfold Inv2S
    rw [hbit, hbest]
    exact inv2_level_step side hwf ht0 hInv hbitO (fun h => by rw [h, hold h]; ring)
  · by_cases htt : t ≠ t0
    · have hio : toIdx P t ≠ toIdx P t0 := toIdx_inj hwf ht ht0 htt
      obtain ⟨hbit, hbest⟩ := updSame_move_char P cfg side t t0 oid v v0 s hdel htt hio
      unfold Inv2S
      rw [hbit, hbest, decide_eq_true (hnew htt)]
      by_cases hc : (s.getS side).vol (toIdx P t0) + -v0 = 0
          ∧ (if betterB side t ((s.getS side).best) then some t
             else (s.getS side).best) = some t0
      · rw [if_pos hc]
        rfl
      · rw [if_neg hc]
        by_cases h0 : (s.getS side).vol (toIdx P t0) + -v0 = 0
        · have hd : decide ((s.getS side).vol (toIdx P t0) + -v0 ≠ 0) = false := by
            simp [h0]
          rw [hd]
          by_cases hb : (s.getS side).best = some t0
          · have hbet : betterB side t ((s.getS side).best) = true := by
              by_contra hbf
              apply hc
              refine ⟨h0, ?_⟩
              rw [if_neg hbf]
              exact hb
            rw [if_pos hbet]
            have hm : scanIdx side (s.getS side).bit P.N = some (toIdx P t0) := by
              rcases hsc : scanIdx side (s.getS side).bit P.N with _ | m
              · rw [hInv, hsc] at hb
                exact absurd hb (by simp)
              · rw [hInv, hsc] at hb
                simp only [Option.map_some', Option.some_inj] at hb
                rw [← hb, toIdx_idxTick]
            rw [hb] at hbet
            exact scan_clear_set side hwf ht ht0 hm hbet
          · have hInv2 : (s.getS side).best
                = (scanIdx side (updFn (s.getS side).bit (toIdx P t0) false) P.N).map
                    (fun i => idxTick P i) := scan_clear_ne side hwf ht0 hInv hb
            exact scan_set_true side hwf ht hInv2
        · have hd : decide ((s.getS side).vol (toIdx P t0) + -v0 ≠ 0) = true :=
            decide_eq_true h0
          rw [hd]
          have hbm : (s.getS side).bit (toIdx P t0) = true :=
            hbitO.mpr (fun hv0 => h0 (by rw [hv0, hold hv0]; ring))
          rw [updFn_eq_self _ _ _ hbm]
          exact scan_set_true side hwf ht hInv
    · obtain ⟨hbit, hbest⟩ := updSame_same_char P cfg side t t0 oid v v0 s hdel htt
      unfold Inv2S
      rw [hbit, hbest]
      have hteq : t = t0 := of_not_not htt
      refine inv2_level_step side hwf ht0 hInv hbitO (fun h => ?_)
      have hv : v = 0 := hsame hteq (by rw [hteq]; exact h)
      have hv0 : v0 = 0 := hold h
      rw [h, hv, hv0]
      ring

lemma Inv2_iff_sides (P : Params) (s : Book) :
    Inv2 P s ↔ ∀ sd, Inv2S P sd (s.getS sd) := by
  constructor
  · rintro ⟨h1, h2⟩ sd
    cases sd
    · exact h1
    · exact h2
  · intro h
    exact ⟨h .bid, h .ask⟩

lemma Inv2S_isSome_iff {P : Params} {sd : Side} {ss : SideState} (h : Inv2S P sd ss) :
    ss.best.isSome = true ↔ ∃ i, i < P.N ∧ ss.bit i = true := by
  have h' : ss.best = (scanIdx sd ss.bit P.N).map (fun i => idxTick P i) := h
  rcases hsc : scanIdx sd ss.bit P.N with _ | m
  · rw [h', hsc]
    simp only [Option.map_none', Option.isSome_none, Bool.false_eq_true, false_iff]
    rintro ⟨i, hi, hb⟩
    cases sd
    · have hf := (findHighestIdx_eq_none_iff ss.bit P.N).mp (by simpa [scanIdx] using hsc) i hi
      rw [hb] at hf
      exact absurd hf (by simp)
    · have hf := (findLowestIdx_eq_none_iff ss.bit P.N).mp (by simpa [scanIdx] using hsc) i hi
      rw [hb] at hf
      exact absurd hf (by simp)
  · rw [h', hsc]
    simp only [Option.map_some', Option.isSome_some, true_iff]
    cases sd
    · obtain ⟨hm, hbm, _⟩ := (findHighestIdx_eq_some_iff ss.bit P.N m).mp
        (by simpa [scanIdx] using hsc)
      exact ⟨m, hm, hbm⟩
    · obtain ⟨hm, hbm, _⟩ := (findLowestIdx_eq_some_iff ss.bit P.N m).mp
        (by simpa [scanIdx] using hsc)
      exact ⟨m, hm, hbm⟩

lemma Inv2S_bestBidQ {P : Params} {s : Book} (h : Inv2S P .bid s.bid) :
    bestBidQ s = (match findHighestIdx s.bid.bit P.N with
      | some i => idxTick P i
      | none => NO_BID_VALUE) := by
  have h' : s.bid.best = (scanIdx .bid s.bid.bit P.N).map (fun i => idxTick P i) := h
  unfold bestBidQ
  rw [h']
  rcases hsc : findHighestIdx s.bid.bit P.N with _ | m
  · simp [scanIdx, hsc]
  · simp [scanIdx, hsc]

lemma Inv2S_bestAskQ {P : Params} {s : Book} (h : Inv2S P .ask s.ask) :
    bestAskQ s = (match findLowestIdx s.ask.bit P.N with
      | some i => idxTick P i
      | none => NO_ASK_VALUE) := by
  have h' : s.ask.best = (scanIdx .ask s.ask.bit P.N).map (fun i => idxTick P i) := h
  unfold bestAskQ
  rw [h']
  rcases hsc : findLowestIdx s.ask.bit P.N with _ | m
  · simp [scanIdx, hsc]
  · simp [scanIdx, hsc]

/-- C6: the best-price cache invariant, with the corrections the code forces.
Given P1 and the cache invariant P2/P3 (`Inv1`/`Inv2`): the cache has a value
iff some level bit is set, `best_bid()`/`best_ask()` return
`range_low + find_highest/find_lowest` of the side's bitmap or the
`numeric_limits` sentinel when the side is empty, and the invariant is
preserved by insert, remove and `clear` and — only under the volume side
conditions below — by update. Unconditional preservation (as the spec
claims) is false: a price-changing update of a zero-as-valid volume-0 order
promotes the best while the target bit stays clear (see the
counterexample). -/
theorem claim_C6 (P : Params) (cfg : Config) (side : Side) (s : Book) (hwf : P.wf)
    (hInv1 : Inv1 P s) (hInv2 : Inv2 P s) :
    ((s.bid.best.isSome = true ↔ ∃ i, i < P.N ∧ s.bid.bit i = true)
      ∧ (s.ask.best.isSome = true ↔ ∃ i, i < P.N ∧ s.ask.bit i = true)
      ∧ bestBidQ s = (match findHighestIdx s.bid.bit P.N with
          | some i => idxTick P i
          | none => NO_BID_VALUE)
      ∧ bestAskQ s = (match findLowestIdx s.ask.bit P.N with
          | some i => idxTick P i
          | none => NO_ASK_VALUE)
      ∧ bestBidQ freshBook = NO_BID_VALUE ∧ bestAskQ freshBook = NO_ASK_VALUE)
      ∧ (∀ t oid v s2, insertImpl P cfg side t oid v s = some s2 → Inv2 P s2)
      ∧ (∀ t oid s2, removeImpl P cfg side t oid s = some s2 → Inv2 P s2)
      ∧ (∀ t oid v s2 rec0, updateImpl P cfg side t oid v s = some s2 →
          s.orders oid = some rec0 →
          (cfg.bpDiscard = false → inRange P rec0.tick = true) →
          ((s.getS side).vol (toIdx P rec0.tick) = 0 → rec0.volume = 0) →
          (inRange P t = true → rec0.tick ≠ t →
            (s.getS side).vol (toIdx P t) + v ≠ 0) →
          (rec0.tick = t → (s.getS side).vol (toIdx P t) = 0 → v = 0) →
          Inv2 P s2)
      ∧ Inv2 P (clearImpl P cfg s) := by
  have hi1 : ∀ sd, Inv1S P (s.getS sd) := (Inv1_iff_sides P s).mp hInv1
  have hi2 : ∀ sd, Inv2S P sd (s.getS sd) := (Inv2_iff_sides P s).mp hInv2
  refine ⟨⟨Inv2S_isSome_iff hInv2.1, Inv2S_isSome_iff hInv2.2,
    Inv2S_bestBidQ hInv2.1, Inv2S_bestAskQ hInv2.2, rfl, rfl⟩, ?_, ?_, ?_, ?_⟩
  · intro t oid v s2 hrun
    obtain ⟨hid, hcase⟩ := insertImpl_inv hrun
    rw [Inv2_iff_sides]
    intro sd
    rcases hcase with ⟨ht, rfl⟩ | ⟨ht, hbp, rfl⟩
    · by_cases hsd : sd = side
      · rw [hsd]
        refine Inv2S_insertPlace P cfg side t oid v _ hwf ht ?_
        rw [getS_setOrder]
        exact hi2 side
      · rw [insertPlace_other P cfg hsd, getS_setOrder]
        exact hi2 sd
    · rw [getS_setOrder]
      exact hi2 sd
  · intro t oid s2 hrun
    obtain ⟨rec0, hor, hcase⟩ := removeImpl_inv hrun
    rw [Inv2_iff_sides]
    intro sd
    rcases hcase with ⟨ht, rfl⟩ | ⟨ht, hbp, rfl⟩
    · by_cases hsd : sd = side
      · rw [hsd]
        exact Inv2S_removePlace P cfg side t oid rec0 s hwf ht (hi2 side)
      · rw [removePlace_other P cfg hsd]
        exact hi2 sd
    · rw [getS_setOrder]
      exact hi2 sd
  · intro t oid v s2 rec0 hrun hor hR hold hnew hsame
    obtain ⟨rec0', hor', hcase⟩ := updateImpl_inv hrun
    rw [hor] at hor'
    have hre : rec0 = rec0' := Option.some_inj.mp hor'
    rw [← hre] at hcase
    rw [Inv2_iff_sides]
    intro sd
    rcases hcase with ⟨hbp, h0, h1, rfl⟩ | ⟨hbp, h0, h1, rfl⟩ | ⟨hbp, h0, h1, rfl⟩
      | ⟨h1, h0d, rfl⟩
    · rw [getS_setOrder]
      exact hi2 sd
    · by_cases hsd : sd = side
      · rw [hsd]
        have hne : rec0.tick ≠ t := by
          intro heq
          rw [heq, h1] at h0
          exact absurd h0 (by simp)
        refine Inv2S_updMoveIn P cfg side t oid v _ hwf h1 ?_ ?_
        · rw [getS_setOrder]
          exact hi2 side
        · rw [getS_setOrder]
          exact hnew h1 hne
      · rw [updMoveIn_other P cfg hsd, getS_setOrder]
        exact hi2 sd
    · by_cases hsd : sd = side
      · rw [hsd]
        refine Inv2S_updMoveOut P cfg side rec0.tick oid rec0.volume _ hwf h0 ?_ ?_ ?_
        · rw [getS_setOrder]
          exact hi1 side
        · rw [getS_setOrder]
          exact hi2 side
        · rw [getS_setOrder]
          exact hold
      · rw [updMoveOut_other P cfg hsd, getS_setOrder]
        exact hi2 sd
    · by_cases hsd : sd = side
      · rw [hsd]
        have ht0 : inRange P rec0.tick = true := by
          cases hbp : cfg.bpDiscard
          · exact hR hbp
          · exact h0d hbp
        refine Inv2S_updSame P cfg side t rec0.tick oid v rec0.volume _ hwf h1 ht0
          ?_ ?_ ?_ ?_ ?_
        · rw [getS_setOrder]
          exact hi1 side
        · rw [getS_setOrder]
          exact hi2 side
        · rw [getS_setOrder]
          exact hold
        · intro htne
          rw [getS_setOrder]
          exact hnew h1 (fun heq => htne heq.symm)
        · intro hteq
          rw [getS_setOrder]
          exact hsame hteq.symm
      · rw [updSame_other P cfg hsd, getS_setOrder]
        exact hi2 sd
  · exact ⟨Inv2S_clearSide P cfg .bid s.bid hInv1.1, Inv2S_clearSide P cfg .ask s.ask hInv1.2⟩

/-- C6 witness: the insert conjunct at a concrete instance — inserting bid
id 1, volume 5 at tick 100 into a fresh default-policy book preserves the
best-price cache invariant. -/
theorem claim_C6_witness :
    Inv2 P48 (insertPlace P48 cfgDefault Side.bid 100 1 5
      (freshBook.setOrder 1 (some ⟨100, 5, false⟩))) :=
  (claim_C6 P48 cfgDefault Side.bid freshBook (by unfold Params.wf; decide)
      (by refine ⟨?_, ?_⟩ <;> (unfold Inv1S; decide))
      (by refine ⟨?_, ?_⟩ <;> (unfold Inv2S; decide))).2.1 100 1 5 _
    (insertImpl_char P48 cfgDefault Side.bid 100 1 5 freshBook rfl (by decide))

/-- C6 counterexample to the unconditional claim: insert bid id 1 volume 5 at
tick 100, then update it to tick 105 with volume 0 (zero-as-valid). The cache
ends at 105 while every bid bit is clear, so `best_bid` has a value although
no level is occupied. -/
theorem claim_C6_counterexample :
    bestProj ((insertImpl P48 cfgDefault Side.bid 100 1 5 freshBook).bind
        (updateImpl P48 cfgDefault Side.bid 105 1 0)) Side.bid = some (some 105)
      ∧ bitProj ((insertImpl P48 cfgDefault Side.bid 100 1 5 freshBook).bind
          (updateImpl P48 cfgDefault Side.bid 105 1 0)) Side.bid 19 = some false
      ∧ bitProj ((insertImpl P48 cfgDefault Side.bid 100 1 5 freshBook).bind
          (updateImpl P48 cfgDefault Side.bid 105 1 0)) Side.bid 14 = some false
      ∧ ((insertImpl P48 cfgDefault Side.bid 100 1 5 freshBook).bind
          (updateImpl P48 cfgDefault Side.bid 105 1 0)).map
            (fun b => findHighestIdx b.bid.bit P48.N) = some none := by
  decide

/-! ### Claim C7: the derived window -/

/-- C7: for statistics with `daily_low < daily_high` (and the scaled span
under the 64-bit cap the spec reserves), `calculate_size` is
`max(high − low + 1, floor((high − low) · (1 + expected_range)))`, the
derived window has exactly that length and contains `[daily_low, daily_high]`,
and the concrete stats 90/130/110/0.20 give `N = 48` with window
`[86, 133]`. -/
theorem claim_C7 (high low close : Int) (bp : Nat) (h : low < high)
    (hcap : ((high - low : Int) : ℚ) * (1 + (bp : ℚ) / 10000) ≤ ((2 ^ 64 - 1 : Nat) : ℚ)) :
    calculateSize high low bp
        = max ((high - low).toNat + 1)
            (⌊((high - low : Int) : ℚ) * (1 + (bp : ℚ) / 10000)⌋).toNat
      ∧ (calculateBounds high low close bp).2 - (calculateBounds high low close bp).1 + 1
          = (calculateSize high low bp : Int)
      ∧ (calculateBounds high low close bp).1 ≤ low
      ∧ high ≤ (calculateBounds high low close bp).2
      ∧ calculateSize 130 90 2000 = 48
      ∧ statsParams 130 90 110 2000 = P48 := by
  obtain ⟨h1, h2, h3⟩ := calculateBounds_spec high low close bp h hcap
  refine ⟨calculateSize_eq_max high low bp hcap, h1, h2, h3, ?_, P48_eq_statsParams.symm⟩
  norm_num [calculateSize]
  rfl

/-- C7 witness: the window law at the concrete statistics
`daily_low=90, daily_high=130, close=110, expected_range=0.20`. -/
theorem claim_C7_witness :
    calculateSize 130 90 2000
        = max ((130 - 90 : Int).toNat + 1)
            (⌊((130 - 90 : Int) : ℚ) * (1 + (2000 : ℚ) / 10000)⌋).toNat
      ∧ (calculateBounds 130 90 110 2000).2 - (calculateBounds 130 90 110 2000).1 + 1
          = (calculateSize 130 90 2000 : Int)
      ∧ (calculateBounds 130 90 110 2000).1 ≤ 90
      ∧ (130 : Int) ≤ (calculateBounds 130 90 110 2000).2
      ∧ calculateSize 130 90 2000 = 48
      ∧ statsParams 130 90 110 2000 = P48 :=
  claim_C7 130 90 110 2000 (by norm_num) (by norm_num)

/-! ### Claim C8: the level_bitmap select operations (level_bitmap.hpp) -/

/-- The indices of set bits among the low `n` bits of a word, ascending. -/
def setBitsW (n w : Nat) : List Nat := (List.range n).filter (fun i => w.testBit i)

/-- `level_bitmap_detail::popcount` (`__builtin_popcountll` / the SWAR
fallback): the number of set bits of a 64-bit word. -/
def popcountW (w : Nat) : Nat := (setBitsW 64 w).length

/-- `level_bitmap_detail::lsb_index` (`__builtin_ctzll`; the portable
fallback is literally this shift loop): trailing zero count of a non-zero
word. -/
def ctz (w : Nat) : Nat :=
  if h : w = 0 ∨ w % 2 = 1 then 0
  else
    have hlt : w / 2 < w := Nat.div_lt_self (by omega) (by omega)
    ctz (w / 2) + 1
termination_by w

/-- `word &= word - 1`: drop the lowest set bit. -/
def dropLowest (w : Nat) : Nat := w &&& (w - 1)

/-- The `for (i = 0; i < rank; ++i) word &= word - 1` loop. -/
def iterDropLowest (w : Nat) : Nat → Nat
  | 0 => w
  | k + 1 => iterDropLowest (dropLowest w) k

/-- `63 - __builtin_clzll(word)` for a non-zero word: the index of the
highest set bit. -/
def msbIdx (w : Nat) : Nat := Nat.log2 w

/-- `word &= ~(1ULL << msb)`: clear the highest set bit (64-bit complement
mask). -/
def clearMsb (w : Nat) : Nat := w &&& ((2 ^ 64 - 1) ^^^ (1 <<< msbIdx w))

/-- The msb-clearing loop of `select_bit_from_msb`. -/
def iterClearMsb (w : Nat) : Nat → Nat
  | 0 => w
  | k + 1 => iterClearMsb (clearMsb w) k

/-- `level_bitmap_detail::select_bit_from_msb(value, rank)`: clear the
highest set bit `rank` times, then return the highest set bit. -/
def selectBitFromMsb (w : Nat) (rank : Nat) : Nat := msbIdx (iterClearMsb w rank)

/-! #### Word-level facts -/

lemma setBitsW_zero_width (w : Nat) : setBitsW 0 w = [] := rfl

lemma setBitsW_succ_top (n w : Nat) :
    setBitsW (n + 1) w = setBitsW n w ++ (if w.testBit n then [n] else []) := by
  rw [setBitsW, List.range_succ, List.filter_append]
  cases hb : w.testBit n <;> simp [setBitsW, List.filter, hb]

lemma setBitsW_parity (n w : Nat) :
    setBitsW (n + 1) w
      = (if w % 2 = 1 then [0] else []) ++ (setBitsW n (w / 2)).map (fun i => i + 1) := by
  rw [setBitsW, List.range_succ_eq_map, List.filter_cons, List.filter_map]
  have hcomp : List.filter ((fun i => w.testBit i) ∘ Nat.succ) (List.range n)
      = List.filter (fun i => (w / 2).testBit i) (List.range n) := by
    refine List.filter_congr ?_
    intro i _
    simp only [Function.comp_apply, Nat.testBit_succ]
  rw [hcomp]
  have hmap : List.map Nat.succ (List.filter (fun i => (w / 2).testBit i) (List.range n))
      = (setBitsW n (w / 2)).map (fun i => i + 1) := by
    rw [setBitsW]
  by_cases h0 : w.testBit 0 = true
  · have h1 : w % 2 = 1 := by simpa [Nat.testBit_zero] using h0
    rw [if_pos h0, if_pos h1, hmap]
    rfl
  · have h1 : ¬(w % 2 = 1) := by simpa [Nat.testBit_zero] using h0
    rw [if_neg h0, if_neg h1, hmap]
    rfl

lemma setBitsW_of_zero (n : Nat) : setBitsW n 0 = [] := by
  simp [setBitsW, Nat.zero_testBit]

lemma testBit_log2_self {w : Nat} (hw : w ≠ 0) : w.testBit (Nat.log2 w) = true := by
  have h1 : 2 ^ Nat.log2 w ≤ w := (Nat.le_log2 hw).mp le_rfl
  have h2 : w < 2 ^ (Nat.log2 w + 1) := (Nat.log2_lt hw).mp (Nat.lt_succ_self _)
  have hdiv : w / 2 ^ Nat.log2 w = 1 := by
    refine Nat.div_eq_of_lt_le (by omega) ?_
    rw [pow_succ] at h2
    omega
  rw [Nat.testBit_to_div_mod, hdiv]
  rfl

lemma setBitsW_ne_nil {n w : Nat} (hw : w ≠ 0) (hlt : w < 2 ^ n) :
    setBitsW n w ≠ [] := by
  have hlog : Nat.log2 w < n := (Nat.log2_lt hw).mpr hlt
  exact List.ne_nil_of_mem
    (List.mem_filter.mpr ⟨List.mem_range.mpr hlog, testBit_log2_self hw⟩)

lemma eq_zero_of_setBitsW_nil {n w : Nat} (hlt : w < 2 ^ n)
    (h : setBitsW n w = []) : w = 0 := by
  by_contra hw
  exact setBitsW_ne_nil hw hlt h

lemma dropLowest_odd {w : Nat} (hodd : w % 2 = 1) : dropLowest w = w - 1 := by
  apply Nat.eq_of_testBit_eq
  intro i
  cases i with
  | zero =>
    rw [dropLowest, Nat.testBit_land, Nat.testBit_zero, Nat.testBit_zero]
    have : (w - 1) % 2 = 0 := by omega
    simp [this]
  | succ i =>
    rw [dropLowest, Nat.testBit_land]
    simp only [Nat.testBit_succ]
    have h1 : (w - 1) / 2 = w / 2 := by omega
    rw [h1, Bool.and_self]

lemma dropLowest_even (a : Nat) : dropLowest (2 * a) = 2 * dropLowest a := by
  rcases Nat.eq_zero_or_pos a with rfl | ha
  · simp [dropLowest]
  apply Nat.eq_of_testBit_eq
  intro i
  cases i with
  | zero =>
    rw [dropLowest, Nat.testBit_land, Nat.testBit_zero, Nat.testBit_zero]
    have h1 : (2 * a) % 2 = 0 := by omega
    have h2 : (2 * dropLowest a) % 2 = 0 := by omega
    simp [h1, h2]
  | succ i =>
    have h1 : 2 * a / 2 = a := by omega
    have h2 : (2 * a - 1) / 2 = a - 1 := by omega
    have h3 : 2 * (a &&& (a - 1)) / 2 = a &&& (a - 1) := by omega
    rw [dropLowest, dropLowest, Nat.testBit_land]
    simp only [Nat.testBit_succ]
    rw [h1, h2, h3, Nat.testBit_land]

lemma ctz_odd {w : Nat} (hodd : w % 2 = 1) : ctz w = 0 := by
  rw [ctz]
  simp [hodd]

lemma ctz_even {w : Nat} (hw : w ≠ 0) (heven : w % 2 = 0) :
    ctz w = ctz (w / 2) + 1 := by
  rw [ctz]
  rw [dif_neg (by omega)]

lemma setBitsW_cons_ctz : ∀ (n w : Nat), w ≠ 0 → w < 2 ^ n →
    setBitsW n w = ctz w :: setBitsW n (dropLowest w) := by
  intro n
  induction n with
  | zero =>
    intro w hw hlt
    exact absurd hlt (by omega)
  | succ m IH =>
    intro w hw hlt
    by_cases hodd : w % 2 = 1
    · rw [ctz_odd hodd, dropLowest_odd hodd, setBitsW_parity m w,
        setBitsW_parity m (w - 1), if_pos hodd, if_neg (by omega)]
      have h3 : (w - 1) / 2 = w / 2 := by omega
      rw [h3]
      rfl
    · have heven : w % 2 = 0 := by omega
      obtain ⟨a, rfl⟩ : ∃ a, w = 2 * a := ⟨w / 2, by omega⟩
      have ha : a ≠ 0 := by omega
      have haN : a < 2 ^ m := by
        have : (2 : Nat) ^ (m + 1) = 2 ^ m * 2 := pow_succ 2 m
        omega
      rw [ctz_even hw heven, dropLowest_even, setBitsW_parity m (2 * a),
        setBitsW_parity m (2 * dropLowest a), if_neg (by omega), if_neg (by omega)]
      have h1 : 2 * a / 2 = a := by omega
      have h2 : 2 * dropLowest a / 2 = dropLowest a := by omega
      rw [h1, h2, IH a ha haN]
      simp

lemma dropLowest_le (w : Nat) : dropLowest w ≤ w := Nat.and_le_left

lemma iterDropLowest_le (w k : Nat) : iterDropLowest w k ≤ w := by
  induction k generalizing w with
  | zero => exact le_rfl
  | succ k IH => exact le_trans (IH (dropLowest w)) (dropLowest_le w)

lemma setBitsW_iterDrop : ∀ (k n w : Nat), w < 2 ^ n →
    k < (setBitsW n w).length →
    setBitsW n (iterDropLowest w k) = (setBitsW n w).drop k := by
  intro k
  induction k with
  | zero =>
    intro n w _ _
    rfl
  | succ k IH =>
    intro n w hlt hk
    have hw : w ≠ 0 := by
      intro h
      rw [h, setBitsW_of_zero] at hk
      exact absurd hk (by simp)
    have hcons := setBitsW_cons_ctz n w hw hlt
    have hlen : k < (setBitsW n (dropLowest w)).length := by
      rw [hcons] at hk
      simpa using hk
    show setBitsW n (iterDropLowest (dropLowest w) k) = _
    rw [IH n (dropLowest w) (lt_of_le_of_lt (dropLowest_le w) hlt) hlen, hcons,
      List.drop_succ_cons]

lemma ctz_iterDrop_get {n w k : Nat} (hlt : w < 2 ^ n)
    (hk : k < (setBitsW n w).length) :
    some (ctz (iterDropLowest w k)) = (setBitsW n w)[k]? := by
  have hdrop := setBitsW_iterDrop k n w hlt hk
  have hne : setBitsW n (iterDropLowest w k) ≠ [] := by
    rw [hdrop]
    intro h
    have := List.drop_eq_nil_iff.mp h
    omega
  have hw' : iterDropLowest w k ≠ 0 := by
    intro h
    rw [h, setBitsW_of_zero] at hne
    exact hne rfl
  have hlt' : iterDropLowest w k < 2 ^ n := lt_of_le_of_lt (iterDropLowest_le w k) hlt
  have hcons := setBitsW_cons_ctz n (iterDropLowest w k) hw' hlt'
  rw [← List.head?_drop, ← hdrop, hcons]
  rfl

lemma clearMsb_le (w : Nat) : clearMsb w ≤ w := Nat.and_le_left

lemma iterClearMsb_le (w k : Nat) : iterClearMsb w k ≤ w := by
  induction k generalizing w with
  | zero => exact le_rfl
  | succ k IH => exact le_trans (IH (clearMsb w)) (clearMsb_le w)

lemma clearMsb_eq {w : Nat} (hw : w ≠ 0) (hlt : w < 2 ^ 64) :
    clearMsb w = w % 2 ^ Nat.log2 w := by
  have hl64 : Nat.log2 w < 64 := (Nat.log2_lt hw).mpr hlt
  have hwlt : w < 2 ^ (Nat.log2 w + 1) := (Nat.log2_lt hw).mp (Nat.lt_succ_self _)
  apply Nat.eq_of_testBit_eq
  intro i
  rw [clearMsb, msbIdx, Nat.testBit_land, Nat.one_shiftLeft, Nat.testBit_xor,
    Nat.testBit_two_pow_sub_one, Nat.testBit_mod_two_pow]
  by_cases hil : i = Nat.log2 w
  · subst hil
    rw [Nat.testBit_two_pow_self]
    simp [hl64]
  · rw [Nat.testBit_two_pow_of_ne (Ne.symm hil)]
    by_cases hi64 : i < 64
    · have hd : (decide (i < 64) ^^ false) = true := by simp [hi64]
      rw [hd]
      by_cases hlow : i < Nat.log2 w
      · simp [hlow]
      · have hbf : w.testBit i = false :=
          Nat.testBit_lt_two_pow
            (lt_of_lt_of_le hwlt (Nat.pow_le_pow_right (by omega) (by omega)))
        simp [hbf, hlow]
    · have hnl : ¬(i < Nat.log2 w) := by omega
      simp [hi64, hnl]

lemma testBit_top_of_ge {w m : Nat} (hge : 2 ^ m ≤ w) (hlt : w < 2 ^ (m + 1)) :
    w.testBit m = true := by
  have hp : (2 : Nat) ^ (m + 1) = 2 ^ m * 2 := pow_succ 2 m
  have hdiv : w / 2 ^ m = 1 := Nat.div_eq_of_lt_le (by omega) (by omega)
  rw [Nat.testBit_to_div_mod, hdiv]
  rfl

lemma setBitsW_reverse_cons : ∀ (n w : Nat), w ≠ 0 → w < 2 ^ n → n ≤ 64 →
    (setBitsW n w).reverse = msbIdx w :: (setBitsW n (clearMsb w)).reverse := by
  intro n
  induction n with
  | zero =>
    intro w hw hlt _
    exact absurd hlt (by omega)
  | succ m IH =>
    intro w hw hlt hn
    have hw64 : w < 2 ^ 64 :=
      lt_of_lt_of_le hlt (Nat.pow_le_pow_right (by omega) hn)
    by_cases hb : w.testBit m = true
    · have hge : 2 ^ m ≤ w := by
        by_contra hc
        rw [Nat.testBit_lt_two_pow (by omega)] at hb
        exact absurd hb (by simp)
      have hlog : Nat.log2 w = m := by
        have h1 : Nat.log2 w < m + 1 := (Nat.log2_lt hw).mpr hlt
        have h2 : m ≤ Nat.log2 w := (Nat.le_log2 hw).mpr hge
        omega
      have hcm : clearMsb w = w % 2 ^ m := by
        rw [clearMsb_eq hw hw64, hlog]
      have hcb : (clearMsb w).testBit m = false := by
        rw [hcm, Nat.testBit_mod_two_pow]
        simp
      rw [setBitsW_succ_top, setBitsW_succ_top, if_pos hb,
        if_neg (by rw [hcb]; exact fun h => absurd h (by simp))]
      simp only [List.reverse_append, List.reverse_cons, List.reverse_nil,
        List.nil_append, List.append_nil, List.singleton_append]
      rw [msbIdx, hlog]
      congr 1
      congr 1
      rw [setBitsW, setBitsW]
      refine List.filter_congr ?_
      intro i hi
      rw [hcm, Nat.testBit_mod_two_pow]
      simp [List.mem_range.mp hi]
    · have hlt' : w < 2 ^ m := by
        by_contra hc
        exact hb (testBit_top_of_ge (by omega) hlt)
      have hcb : (clearMsb w).testBit m = false :=
        Nat.testBit_lt_two_pow (lt_of_le_of_lt (clearMsb_le w) hlt')
      rw [setBitsW_succ_top, setBitsW_succ_top, if_neg hb,
        if_neg (by rw [hcb]; exact fun h => absurd h (by simp))]
      simp only [List.append_nil]
      exact IH w hw hlt' (by omega)

lemma setBitsW_iterClear : ∀ (k n w : Nat), w < 2 ^ n → n ≤ 64 →
    k < (setBitsW n w).length →
    (setBitsW n (iterClearMsb w k)).reverse = (setBitsW n w).reverse.drop k := by
  intro k
  induction k with
  | zero =>
    intro n w _ _ _
    rfl
  | succ k IH =>
    intro n w hlt hn hk
    have hw : w ≠ 0 := by
      intro h
      rw [h, setBitsW_of_zero] at hk
      exact absurd hk (by simp)
    have hcons := setBitsW_reverse_cons n w hw hlt hn
    have hlen : k < (setBitsW n (clearMsb w)).length := by
      have h1 := congrArg List.length hcons
      simp only [List.length_reverse, List.length_cons] at h1
      omega
    show (setBitsW n (iterClearMsb (clearMsb w) k)).reverse = _
    rw [IH n (clearMsb w) (lt_of_le_of_lt (clearMsb_le w) hlt) hn hlen, hcons,
      List.drop_succ_cons]

lemma selectBitFromMsb_get {n w k : Nat} (hlt : w < 2 ^ n) (hn : n ≤ 64)
    (hk : k < (setBitsW n w).length) :
    some (selectBitFromMsb w k) = (setBitsW n w).reverse[k]? := by
  have hdrop := setBitsW_iterClear k n w hlt hn hk
  have hne : (setBitsW n (iterClearMsb w k)).reverse ≠ [] := by
    rw [hdrop]
    intro h
    have h2 := List.drop_eq_nil_iff.mp h
    simp only [List.length_reverse] at h2
    omega
  have hw' : iterClearMsb w k ≠ 0 := by
    intro h
    rw [h, setBitsW_of_zero] at hne
    exact hne rfl
  have hlt' : iterClearMsb w k < 2 ^ n := lt_of_le_of_lt (iterClearMsb_le w k) hlt
  have hcons := setBitsW_reverse_cons n (iterClearMsb w k) hw' hlt' hn
  rw [← List.head?_drop, ← hdrop, hcons]
  rfl

/-! #### The bitmap state and its select operations -/

/-- `level_bitmap<N, true>` (single 64-bit block): the raw word and the
maintained total popcount. -/
structure LevelBitmap1 where
  bits : Nat
  totalPopcount : Nat
deriving DecidableEq

/-- The representation invariant `set` maintains: the word fits in `N` bits
and the cached popcount is exact. -/
def LevelBitmap1.wf (N : Nat) (b : LevelBitmap1) : Prop :=
  b.bits < 2 ^ N ∧ b.totalPopcount = popcountW b.bits

/-- Single-block `select_from_low`: `none` is the `std::out_of_range` throw
(the method is `const`, so the bitmap itself cannot change). -/
def LevelBitmap1.selectFromLow (b : LevelBitmap1) (rank : Nat) : Option Nat :=
  if b.totalPopcount ≤ rank then none
  else some (ctz (iterDropLowest b.bits rank))

/-- Single-block `select_from_high`. -/
def LevelBitmap1.selectFromHigh (b : LevelBitmap1) (rank : Nat) : Option Nat :=
  if b.totalPopcount ≤ rank then none
  else some (selectBitFromMsb b.bits rank)

/-- The generic multi-block `level_bitmap`: the 64-bit words low block first,
and the maintained total popcount. -/
structure LevelBitmapM where
  blocks : List Nat
  totalPopcount : Nat
deriving DecidableEq

/-- The set bit indices of a block list, ascending (the spec's reading:
global index `block * 64 + offset`). -/
def setBitsM : List Nat → List Nat
  | [] => []
  | w :: ws => setBitsW 64 w ++ (setBitsM ws).map (fun i => i + 64)

/-- Representation invariant: every word fits 64 bits and the cached
popcount is the total number of set bits. -/
def LevelBitmapM.wf (b : LevelBitmapM) : Prop :=
  (∀ w ∈ b.blocks, w < 2 ^ 64) ∧ b.totalPopcount = (setBitsM b.blocks).length

/-- The block scan of the generic `select_from_low`. -/
def selectLowLoop : List Nat → Nat → Nat → Option Nat
  | [], _, _ => none
  | w :: ws, remaining, blockIdx =>
    if remaining < popcountW w then
      some (blockIdx * 64 + ctz (iterDropLowest w remaining))
    else selectLowLoop ws (remaining - popcountW w) (blockIdx + 1)

/-- Generic `select_from_low` (the final `logic_error` is also `none`). -/
def LevelBitmapM.selectFromLow (b : LevelBitmapM) (rank : Nat) : Option Nat :=
  if b.totalPopcount ≤ rank then none else selectLowLoop b.blocks rank 0

/-- The top-down block scan of the generic `select_from_high`; it consumes
the reversed block list, so the original block index of the head is the
length of the tail. -/
def selectHighLoop : List Nat → Nat → Option Nat
  | [], _ => none
  | w :: ws, remaining =>
    if remaining < popcountW w then some (ws.length * 64 + selectBitFromMsb w remaining)
    else selectHighLoop ws (remaining - popcountW w)

/-- Generic `select_from_high`. -/
def LevelBitmapM.selectFromHigh (b : LevelBitmapM) (rank : Nat) : Option Nat :=
  if b.totalPopcount ≤ rank then none else selectHighLoop b.blocks.reverse rank

lemma setBitsW_le_width : ∀ (m n w : Nat), n ≤ m → w < 2 ^ n →
    setBitsW m w = setBitsW n w := by
  intro m
  induction m with
  | zero =>
    intro n w hnm _
    have : n = 0 := by omega
    rw [this]
  | succ m IH =>
    intro n w hnm hlt
    rcases Nat.lt_or_ge n (m + 1) with h | h
    · have hn : n ≤ m := by omega
      have hw : w < 2 ^ m :=
        lt_of_lt_of_le hlt (Nat.pow_le_pow_right (by omega) hn)
      rw [setBitsW_succ_top, IH n w hn hlt,
        if_neg (by rw [Nat.testBit_lt_two_pow hw]; exact fun hx => absurd hx (by simp)),
        List.append_nil]
    · have : n = m + 1 := by omega
      rw [this]

lemma setBitsM_append : ∀ (xs ys : List Nat),
    setBitsM (xs ++ ys)
      = setBitsM xs ++ (setBitsM ys).map (fun i => i + 64 * xs.length) := by
  intro xs
  induction xs with
  | nil =>
    intro ys
    simp [setBitsM]
  | cons w xs IH =>
    intro ys
    simp only [List.cons_append, setBitsM, List.length_cons, List.append_eq]
    rw [IH ys, List.map_append, List.map_map, List.append_assoc]
    have hfe : ((fun i => i + 64) ∘ fun i => i + 64 * xs.length)
        = (fun i => i + 64 * (xs.length + 1)) := by
      funext i
      simp only [Function.comp_apply]
      ring
    rw [hfe]

lemma setBitsM_singleton (w : Nat) : setBitsM [w] = setBitsW 64 w := by
  simp [setBitsM]

lemma selectLowLoop_correct : ∀ (ws : List Nat) (k base : Nat),
    (∀ w ∈ ws, w < 2 ^ 64) → k < (setBitsM ws).length →
    selectLowLoop ws k base = ((setBitsM ws).map (fun i => i + 64 * base))[k]? := by
  intro ws
  induction ws with
  | nil =>
    intro k base _ hk
    simp [setBitsM] at hk
  | cons w ws IH =>
    intro k base hbound hk
    have hw64 : w < 2 ^ 64 := hbound w (List.mem_cons_self w ws)
    have hlenw : (setBitsW 64 w).length = popcountW w := rfl
    simp only [selectLowLoop]
    by_cases hkp : k < popcountW w
    · rw [if_pos hkp]
      have hget := @ctz_iterDrop_get 64 w k hw64 (by omega : k < (setBitsW 64 w).length)
      show _ = ((setBitsW 64 w ++ (setBitsM ws).map (fun i => i + 64)).map
        (fun i => i + 64 * base))[k]?
      rw [List.map_append, List.getElem?_append]
      rw [if_pos (by simp only [List.length_map]; omega)]
      rw [List.getElem?_map, ← hget]
      simp only [Option.map_some']
      congr 1
      ring
    · rw [if_neg hkp]
      have hlen : (setBitsM (w :: ws)).length
          = popcountW w + (setBitsM ws).length := by
        show (setBitsW 64 w ++ (setBitsM ws).map (fun i => i + 64)).length = _
        simp [hlenw]
      have hk' : k - popcountW w < (setBitsM ws).length := by omega
      rw [IH (k - popcountW w) (base + 1)
        (fun x hx => hbound x (List.mem_cons_of_mem w hx)) hk']
      show _ = ((setBitsW 64 w ++ (setBitsM ws).map (fun i => i + 64)).map
        (fun i => i + 64 * base))[k]?
      rw [List.map_append, List.getElem?_append]
      rw [if_neg (by simp only [List.length_map]; omega)]
      rw [List.map_map]
      have hfe : ((fun i => i + 64 * base) ∘ fun i => i + 64)
          = (fun i => i + 64 * (base + 1)) := by
        funext i
        simp only [Function.comp_apply]
        ring
      rw [hfe]
      congr 1
      simp only [List.length_map]
      omega

lemma selectHighLoop_correct : ∀ (ws : List Nat) (k : Nat),
    (∀ w ∈ ws, w < 2 ^ 64) → k < (setBitsM ws).length →
    selectHighLoop ws.reverse k = (setBitsM ws).reverse[k]? := by
  intro ws
  induction ws using List.reverseRecOn with
  | nil =>
    intro k _ hk
    simp [setBitsM] at hk
  | append_singleton xs w IH =>
    intro k hbound hk
    have hw64 : w < 2 ^ 64 := hbound w (by simp)
    have hlenw : (setBitsW 64 w).length = popcountW w := rfl
    have hlen : (setBitsM (xs ++ [w])).length
        = (setBitsM xs).length + popcountW w := by
      rw [setBitsM_append, setBitsM_singleton]
      simp [hlenw]
    rw [List.reverse_append]
    simp only [List.reverse_cons, List.reverse_nil, List.nil_append,
      List.singleton_append]
    simp only [selectHighLoop]
    rw [setBitsM_append, setBitsM_singleton, List.reverse_append]
    by_cases hkp : k < popcountW w
    · rw [if_pos hkp]
      have hget := @selectBitFromMsb_get 64 w k hw64 le_rfl
        (by omega : k < (setBitsW 64 w).length)
      rw [List.getElem?_append]
      rw [if_pos (by simp only [List.length_reverse, List.length_map]; omega)]
      rw [← List.map_reverse, List.getElem?_map, ← hget]
      simp only [Option.map_some', List.length_reverse]
      congr 1
      ring
    · rw [if_neg hkp]
      have hk' : k - popcountW w < (setBitsM xs).length := by omega
      rw [IH (k - popcountW w) (fun x hx => hbound x (List.mem_append_left _ hx)) hk']
      rw [List.getElem?_append]
      rw [if_neg (by simp only [List.length_reverse, List.length_map]; omega)]
      congr 1
      simp only [List.length_reverse, List.length_map]
      omega

/-- C8: `select_from_low(k)` / `select_from_high(k)` return the index of the
(k+1)-th set bit counted from the low / high end whenever `k < count()`, and
fail with `std::out_of_range` (here `none`) when `k ≥ count()`; both methods
are `const`, so the bitmap is unchanged in every case. Stated for the
single-block specialisation `level_bitmap<N, true>` (any `N ≤ 64`) and the
generic multi-block `level_bitmap`, each under its representation
invariant. -/
theorem claim_C8 :
    (∀ (N : Nat) (b : LevelBitmap1) (k : Nat), N ≤ 64 → b.wf N →
        (k < b.totalPopcount →
          b.selectFromLow k = (setBitsW N b.bits)[k]?
            ∧ b.selectFromHigh k = (setBitsW N b.bits).reverse[k]?)
          ∧ (b.totalPopcount ≤ k →
            b.selectFromLow k = none ∧ b.selectFromHigh k = none))
      ∧ (∀ (b : LevelBitmapM) (k : Nat), b.wf →
        (k < b.totalPopcount →
          b.selectFromLow k = (setBitsM b.blocks)[k]?
            ∧ b.selectFromHigh k = (setBitsM b.blocks).reverse[k]?)
          ∧ (b.totalPopcount ≤ k →
            b.selectFromLow k = none ∧ b.selectFromHigh k = none)) := by
  constructor
  · intro N b k hN hwf
    obtain ⟨hlt, hpc⟩ := hwf
    have hw : setBitsW 64 b.bits = setBitsW N b.bits := setBitsW_le_width 64 N b.bits hN hlt
    have hlen : b.totalPopcount = (setBitsW N b.bits).length := by
      rw [hpc, popcountW, hw]
    constructor
    · intro hk
      have hk' : k < (setBitsW N b.bits).length := by omega
      constructor
      · rw [LevelBitmap1.selectFromLow, if_neg (by omega)]
        exact ctz_iterDrop_get hlt hk'
      · rw [LevelBitmap1.selectFromHigh, if_neg (by omega)]
        exact selectBitFromMsb_get hlt hN hk'
    · intro hk
      exact ⟨by rw [LevelBitmap1.selectFromLow, if_pos hk],
        by rw [LevelBitmap1.selectFromHigh, if_pos hk]⟩
  · intro b k hwf
    obtain ⟨hbound, hpc⟩ := hwf
    constructor
    · intro hk
      have hk' : k < (setBitsM b.blocks).length := by omega
      constructor
      · rw [LevelBitmapM.selectFromLow, if_neg (by omega),
          selectLowLoop_correct b.blocks k 0 hbound hk']
        simp only [Nat.mul_zero, Nat.add_zero, List.map_id']
      · rw [LevelBitmapM.selectFromHigh, if_neg (by omega)]
        exact selectHighLoop_correct b.blocks k hbound hk'
    · intro hk
      exact ⟨by rw [LevelBitmapM.selectFromLow, if_pos hk],
        by rw [LevelBitmapM.selectFromHigh, if_pos hk]⟩

/-- C8 witness: the word `45 = 0b101101` (set bits 0, 2, 3, 5) in a
single-block bitmap of width 6, and the two-block bitmap `[45, 9]` (global
set bits 0, 2, 3, 5, 64, 67). -/
theorem claim_C8_witness :
    ((⟨45, 4⟩ : LevelBitmap1).selectFromLow 2 = some 3)
      ∧ ((⟨45, 4⟩ : LevelBitmap1).selectFromHigh 0 = some 5)
      ∧ ((⟨45, 4⟩ : LevelBitmap1).selectFromLow 4 = none)
      ∧ ((⟨[45, 9], 6⟩ : LevelBitmapM).selectFromHigh 1 = some 64)
      ∧ ((⟨[45, 9], 6⟩ : LevelBitmapM).selectFromLow 6 = none) := by
  obtain ⟨hA, hB⟩ := claim_C8
  have hwf1 : LevelBitmap1.wf 6 ⟨45, 4⟩ := by
    refine ⟨?_, ?_⟩ <;> decide
  have hwfM : LevelBitmapM.wf ⟨[45, 9], 6⟩ := by
    refine ⟨?_, ?_⟩ <;> decide
  refine ⟨?_, ?_, ?_, ?_, ?_⟩
  · exact ((hA 6 ⟨45, 4⟩ 2 (by decide) hwf1).1 (by decide)).1.trans (by decide)
  · exact ((hA 6 ⟨45, 4⟩ 0 (by decide) hwf1).1 (by decide)).2.trans (by decide)
  · exact ((hA 6 ⟨45, 4⟩ 4 (by decide) hwf1).2 (by decide)).1
  · exact ((hB ⟨[45, 9], 6⟩ 1 hwfM).1 (by decide)).2.trans (by decide)
  · exact ((hB ⟨[45, 9], 6⟩ 6 hwfM).2 (by decide)).1

end Jazzy